import Mathlib

/-!
# Verification of the megamatch runtime pattern-matching engine

This file is a shallow embedding, in Lean 4, of the runtime core of the
megamatch pattern-matching library (parser, interpretive matcher, JIT
compiler model, FIFO caches), together with theorems settling the claims
of the specification against it.

Conventions of the embedding:

* JavaScript runtime values are modelled by the inductive type `JSValue`.
  Objects carry their own enumerable string-keyed properties as an ordered
  association list (the property order the engine would report); the
  prototype chain and non-enumerable properties other than array `length`
  are not modelled (the engine code only inspects own enumerable
  properties, `length`, and `in`, which we model accordingly).
* JavaScript numbers are modelled by `JSNum`: NaN, the two signed zeros,
  the two infinities and exact finite values (as rationals; float64
  rounding plays no role in the claims under verification, which only
  involve exactly representable values).
* Fallible code (`throw`) is modelled with `Except String`.
-/

set_option maxHeartbeats 1000000

namespace Megamatch

/-! ## The JavaScript value model -/

/-- A JavaScript number.  `fin 0` is positive zero; `negZero` is `-0`.
Structural equality of `JSNum` coincides with JavaScript `Object.is`
(SameValue) on numbers: it distinguishes the signed zeros and makes NaN
equal to itself. -/
inductive JSNum where
  | nan
  | negZero
  | posInf
  | negInf
  | fin (q : ℚ)
  deriving DecidableEq, Repr

/-- Class of an object-typed value, used by the typed-wildcard predicates
(`instanceof Date`, `instanceof Map`, …).  `plain` is an ordinary object. -/
inductive JSClass where
  | plain
  | date
  | regexp
  | error
  | map
  | set
  | weakMap
  | weakSet
  | promise
  | typedArray
  | arrayBuffer
  | dataView
  deriving DecidableEq, Repr

/-- A JavaScript runtime value.  `obj` and `func` carry their own
enumerable string-keyed properties in property order; `sym`/`func` carry
an identity so that distinct symbols/functions are distinct values. -/
inductive JSValue where
  | null
  | undef
  | bool (b : Bool)
  | num (n : JSNum)
  | bigint (i : ℤ)
  | str (s : String)
  | sym (id : ℕ)
  | arr (elems : List JSValue)
  | obj (cls : JSClass) (entries : List (String × JSValue))
  | func (id : ℕ) (entries : List (String × JSValue))

namespace JSValue

/-- `typeof value` as a string. -/
def typeofStr : JSValue → String
  | .null => "object"
  | .undef => "undefined"
  | .bool _ => "boolean"
  | .num _ => "number"
  | .bigint _ => "bigint"
  | .str _ => "string"
  | .sym _ => "symbol"
  | .arr _ => "object"
  | .obj _ _ => "object"
  | .func _ _ => "function"

/-- `value !== null && (typeof value === "object" || typeof value === "function")`:
the guard used by the Object pattern, by the `object` upper bound and by
the sugared-ADT pattern. -/
def isObjectLike : JSValue → Bool
  | .null => false
  | .arr _ => true
  | .obj _ _ => true
  | .func _ _ => true
  | _ => false

/-- The own enumerable string-keyed properties of a value, in property
order.  For arrays these are the index properties. -/
def ownEnumEntries : JSValue → List (String × JSValue)
  | .arr elems => (elems.enum.map fun p => (toString p.1, p.2))
  | .obj _ entries => entries
  | .func _ entries => entries
  | _ => []

/-- `key in value` restricted to what the engine relies on: own
enumerable properties, plus `length` on arrays.  (The prototype chain is
not modelled.) -/
def hasProp (v : JSValue) (k : String) : Bool :=
  match v with
  | .arr _ => ((v.ownEnumEntries.any fun p => p.1 == k)) || k == "length"
  | _ => v.ownEnumEntries.any fun p => p.1 == k

/-- `value[key]`, yielding `undefined` when the property is absent. -/
def getProp (v : JSValue) (k : String) : JSValue :=
  match v with
  | .arr elems =>
    if k == "length" then .num (.fin elems.length)
    else ((v.ownEnumEntries.find? fun p => p.1 == k).map Prod.snd).getD .undef
  | _ => ((v.ownEnumEntries.find? fun p => p.1 == k).map Prod.snd).getD .undef

end JSValue

/-- `Array.prototype.slice(start, end)` on a list, with JavaScript's
clamping of negative and out-of-range indices. -/
def jsSlice (l : List α) (start fin : Int) : List α :=
  let len : Int := l.length
  let s : Int := if start < 0 then max (len + start) 0 else min start len
  let e : Int := if fin < 0 then max (len + fin) 0 else min fin len
  (l.take e.toNat).drop s.toNat

/-- `Array.prototype.slice(start)` (single-argument form). -/
def jsSliceFrom (l : List α) (start : Int) : List α :=
  jsSlice l start l.length

/-- Building a JavaScript object step by step (`Object.assign` and
object-literal semantics): setting an existing key overwrites in place,
a new key is appended. -/
def jsRecordSet (entries : List (String × JSValue)) (k : String) (v : JSValue) :
    List (String × JSValue) :=
  if entries.any fun p => p.1 == k then
    entries.map fun p => if p.1 == k then (p.1, v) else p
  else entries ++ [(k, v)]

/-- `Object.assign({}, a, b)`: keys of `a` in order (values overridden by
`b` on collision), then the keys of `b` not in `a`, in order. -/
def jsAssign (a b : List (String × JSValue)) : List (String × JSValue) :=
  b.foldl (fun acc p => jsRecordSet acc p.1 p.2) a

/-- `Object.is(value, lit)` (and, equally, `value === lit`) where `lit` is a
primitive value.  Pattern literals are always primitives; on booleans,
bigints and strings `===` agrees with `Object.is`, and on numbers the
engine uses `Object.is`, which is structural equality of `JSNum`. -/
def jsLiteralEq (v lit : JSValue) : Bool :=
  match v, lit with
  | .bool a, .bool b => a == b
  | .num a, .num b => a == b
  | .bigint a, .bigint b => a == b
  | .str a, .str b => a == b
  | _, _ => false

/-! ## `Number(string)` (ECMAScript ToNumber on strings)

The sugared-ADT capture logic of the matcher filters object keys with
`Number(key.slice(1))` and sorts by it, so the embedding needs the
string-to-number conversion of the host language. -/

/-- ASCII whitespace recognized when trimming a string numeric literal. -/
def isWsChar (c : Char) : Bool :=
  c == ' ' || c == '\t' || c == '\n' || c == '\r' || c == '\x0b' || c == '\x0c'

def isDigitChar (c : Char) : Bool := decide ('0' ≤ c) && decide (c ≤ '9')

def digitsToNat (ds : List Char) : ℕ :=
  ds.foldl (fun a c => a * 10 + (c.toNat - 48)) 0

/-- Parse an exponent part `e|E [+|-] digits`; `none` when the input does
not start with a well-formed exponent. -/
def parseExpPart (cs : List Char) : Option (ℤ × List Char) :=
  match cs with
  | c :: rest =>
    if c == 'e' || c == 'E' then
      let sr : ℤ × List Char :=
        match rest with
        | s :: r2 => if s == '+' then (1, r2) else if s == '-' then (-1, r2) else (1, rest)
        | [] => (1, [])
      let ds := sr.2.takeWhile isDigitChar
      if ds.isEmpty then none
      else some (sr.1 * (digitsToNat ds : ℤ), sr.2.dropWhile isDigitChar)
    else none
  | [] => none

/-- Parse `digits [. digits]` or `. digits` as an exact rational. -/
def parseDecMantissa (cs : List Char) : Option (ℚ × List Char) :=
  let ip := cs.takeWhile isDigitChar
  let r1 := cs.dropWhile isDigitChar
  match r1 with
  | '.' :: r2 =>
    let fp := r2.takeWhile isDigitChar
    let r3 := r2.dropWhile isDigitChar
    if ip.isEmpty && fp.isEmpty then none
    else some ((digitsToNat ip : ℚ) + (digitsToNat fp : ℚ) / ((10 : ℚ) ^ fp.length), r3)
  | _ => if ip.isEmpty then none else some ((digitsToNat ip : ℚ), r1)

/-- Parse an unsigned decimal numeric (`Infinity` reported as `none` in
the first component, a finite value as `some q`). -/
def parseUnsignedNumeric (cs : List Char) : Option (Option ℚ × List Char) :=
  if cs.take 8 = "Infinity".data then some (none, cs.drop 8)
  else
    match parseDecMantissa cs with
    | none => none
    | some (q, r) =>
      match parseExpPart r with
      | some (e, r2) => some (some (q * (10 : ℚ) ^ e), r2)
      | none => some (some q, r)

def radixDigitVal (c : Char) : Option ℕ :=
  if isDigitChar c then some (c.toNat - 48)
  else if decide ('a' ≤ c) && decide (c ≤ 'f') then some (c.toNat - 87)
  else if decide ('A' ≤ c) && decide (c ≤ 'F') then some (c.toNat - 55)
  else none

/-- Parse a whole string of digits in the given radix; `none` when empty
or a character is out of range. -/
def parseRadixAll (radix : ℕ) (cs : List Char) : Option ℕ :=
  if cs.isEmpty then none
  else
    cs.foldl
      (fun acc c =>
        match acc, radixDigitVal c with
        | some a, some d => if d < radix then some (a * radix + d) else none
        | _, _ => none)
      (some 0)

/-- The decimal branch of `Number(string)` (optional sign, `Infinity` or
decimal mantissa with optional exponent, full consumption). -/
def jsStringToNumDec (cs : List Char) : JSNum :=
  let sgn : Bool × List Char :=
    match cs with
    | '-' :: r => (true, r)
    | '+' :: r => (false, r)
    | _ => (false, cs)
  match parseUnsignedNumeric sgn.2 with
  | some (none, []) => if sgn.1 then .negInf else .posInf
  | some (some q, []) =>
    if sgn.1 then (if q = 0 then .negZero else .fin (-q)) else .fin q
  | _ => .nan

/-- `Number(s)` for a string `s`: trim whitespace, empty gives `+0`, a
`0x`/`0o`/`0b` prefix selects a radix literal (no sign allowed), otherwise
the signed decimal/`Infinity` form; anything else is NaN. -/
def jsStringToNum (s : String) : JSNum :=
  let cs := ((s.data.dropWhile isWsChar).reverse.dropWhile isWsChar).reverse
  if cs.isEmpty then .fin 0
  else
    match cs with
    | '0' :: x :: rest =>
      if x == 'x' || x == 'X' then
        match parseRadixAll 16 rest with
        | some n => .fin n
        | none => .nan
      else if x == 'o' || x == 'O' then
        match parseRadixAll 8 rest with
        | some n => .fin n
        | none => .nan
      else if x == 'b' || x == 'B' then
        match parseRadixAll 2 rest with
        | some n => .fin n
        | none => .nan
      else jsStringToNumDec cs
    | _ => jsStringToNumDec cs

/-! ## A stable sort modelling `Array.prototype.sort`

`Array.prototype.sort` is stable (required since ES2019); we model a sort
with a boolean `le` (`le y x` meaning the comparator does not require `x`
before `y`) as a stable insertion sort. -/

def insertStable (le : α → α → Bool) (x : α) : List α → List α
  | [] => [x]
  | y :: ys => if le y x then y :: insertStable le x ys else x :: y :: ys

def jsStableSort (le : α → α → Bool) (l : List α) : List α :=
  l.foldl (fun acc x => insertStable le x acc) []

/-- Rank used to compare two `JSNum`s the way the comparator
`(a, b) => a - b` orders them: `-Infinity` first, finite values (with the
signed zeros identified) by value, `+Infinity` last.  When the
subtraction is NaN (`Infinity - Infinity`) the comparator gives the
engine no ordering information; we keep the original relative order, as
a stable sort does for a zero comparator. -/
def JSNum.sortRank : JSNum → ℤ × ℚ
  | .negInf => (-1, 0)
  | .posInf => (1, 0)
  | .nan => (0, 0)
  | .negZero => (0, 0)
  | .fin q => (0, q)

def JSNum.sortLe (a b : JSNum) : Bool :=
  decide (a.sortRank.1 < b.sortRank.1) ||
    (a.sortRank.1 == b.sortRank.1 && decide (a.sortRank.2 ≤ b.sortRank.2))

/-! ## The pattern AST (`Node`, from `src/types.ts`) -/

/-- AST node for the pattern matching language, mirroring the tagged
tuple type `Node` of `src/types.ts`. -/
inductive Node where
  | nullLiteral
  | undefinedLiteral
  | booleanLiteral (value : Bool)
  | bigintLiteral (value : ℤ)
  | numberLiteral (value : JSNum)
  | stringLiteral (value : String)
  | wildcard (upperBound : String)
  | unnamedArg (boundedNode : Option Node)
  | unnamedSpreadArg
  | namedArg (name : String) (boundedNode : Option Node)
  | namedSpreadArg (name : String)
  | wildcardSpread
  | tuple (elements : List Node)
  | object (entries : List (String × Node))
  | sugaredADTRoot (tag : String)
  | orNode (variants : List Node)

/-- The `type` discriminator string of a node (`node[0]` in the source),
on which the engine performs `.includes("Spread")` / `.includes("Arg")`
checks. -/
def Node.typeName : Node → String
  | .nullLiteral => "NullLiteral"
  | .undefinedLiteral => "UndefinedLiteral"
  | .booleanLiteral _ => "BooleanLiteral"
  | .bigintLiteral _ => "BigIntLiteral"
  | .numberLiteral _ => "NumberLiteral"
  | .stringLiteral _ => "StringLiteral"
  | .wildcard _ => "Wildcard"
  | .unnamedArg _ => "UnnamedArg"
  | .unnamedSpreadArg => "UnnamedSpreadArg"
  | .namedArg _ _ => "NamedArg"
  | .namedSpreadArg _ => "NamedSpreadArg"
  | .wildcardSpread => "WildcardSpread"
  | .tuple _ => "Tuple"
  | .object _ => "Object"
  | .sugaredADTRoot _ => "SugaredADTRoot"
  | .orNode _ => "Or"

/-- `String.prototype.startsWith`. -/
def strStartsWith (s p : String) : Bool := p.data.isPrefixOf s.data

/-- `String.prototype.endsWith`. -/
def strEndsWith (s p : String) : Bool := p.data.reverse.isPrefixOf s.data.reverse

/-- `s.slice(0, -n)`: drop the trailing `n` characters. -/
def strDropRight (s : String) (n : ℕ) : String := .mk (s.data.take (s.data.length - n))

/-- Whether `sub` occurs as a contiguous sublist of `l`. -/
def listContainsSub (sub : List Char) : List Char → Bool
  | [] => sub.isEmpty
  | c :: rest => sub.isPrefixOf (c :: rest) || listContainsSub sub rest

/-- `String.prototype.includes` (substring test). -/
def strIncludes (s sub : String) : Bool := listContainsSub sub.data s.data

/-- `node[0].includes("Spread")`. -/
def Node.isSpreadName (n : Node) : Bool := strIncludes n.typeName "Spread"

/-- `node[0].includes("Arg")`. -/
def Node.isArgName (n : Node) : Bool := strIncludes n.typeName "Arg"

/-! ## Captures (`MatchResult.args`) and merging -/

/-- The captures of a match: either an ordered list of unnamed captures,
or a key-to-value record of named captures. -/
inductive MatchArgs where
  | unnamed (vals : List JSValue)
  | named (fields : List (String × JSValue))

/-- An empty capture container (`[]` or an object with no keys). -/
def MatchArgs.isEmpty : MatchArgs → Bool
  | .unnamed l => l.isEmpty
  | .named fields => fields.isEmpty

/-- `mergeArgs` from `src/runtime/match.ts`: an empty side yields the
other side unchanged, two unnamed lists concatenate, two named records
merge by `Object.assign`, and mixing named with unnamed throws. -/
def mergeArgs (args1 args2 : MatchArgs) : Except String MatchArgs :=
  if args2.isEmpty then .ok args1
  else if args1.isEmpty then .ok args2
  else
    match args1, args2 with
    | .unnamed l1, .unnamed l2 => .ok (.unnamed (l1 ++ l2))
    | .named m1, .named m2 => .ok (.named (jsAssign m1 m2))
    | _, _ => .error " matching error: Cannot mix named and unnamed arguments in a pattern"

/-! ## The interpretive matcher (`src/runtime/match.ts`) -/

/-- `value instanceof <class>` for the exotic classes used by the typed
wildcards.  Arrays and plain functions are not instances of any of them
in the model. -/
def JSValue.instanceOfCls (v : JSValue) (c : JSClass) : Bool :=
  match v with
  | .obj cls _ => cls == c
  | _ => false

/-- `validateUpperBound` from `src/runtime/match.ts`: the runtime type
predicate of each typed wildcard. -/
def validateUpperBound (value : JSValue) (upperBound : String) : Bool :=
  if upperBound == "unknown" then true
  else if upperBound == "object" then value.isObjectLike
  else if upperBound == "nonNullable" then
    match value with
    | .null => false
    | .undef => false
    | _ => true
  else if upperBound == "Date" then value.instanceOfCls .date
  else if upperBound == "RegExp" then value.instanceOfCls .regexp
  else if upperBound == "Error" then value.instanceOfCls .error
  else if upperBound == "Array" then
    match value with
    | .arr _ => true
    | _ => false
  else if upperBound == "Map" then value.instanceOfCls .map
  else if upperBound == "Set" then value.instanceOfCls .set
  else if upperBound == "WeakMap" then value.instanceOfCls .weakMap
  else if upperBound == "WeakSet" then value.instanceOfCls .weakSet
  else if upperBound == "Promise" then value.instanceOfCls .promise
  else if upperBound == "TypedArray" then
    -- `ArrayBuffer.isView(value) && !(value instanceof DataView)`
    (value.instanceOfCls .typedArray || value.instanceOfCls .dataView) &&
      !(value.instanceOfCls .dataView)
  else if upperBound == "ArrayBuffer" then value.instanceOfCls .arrayBuffer
  else if upperBound == "DataView" then value.instanceOfCls .dataView
  else value.typeofStr == upperBound

mutual

/-- `extractAllArgs` from `src/runtime/match.ts`: the capture container a
node would produce, with every captured value replaced by `fill`
(invoked with `undefined` for absent optional keys).  `extractAllArgsList`
and `extractAllArgsEntries` are the `reduce` loops over tuple elements
and object entries. -/
def extractAllArgs (node : Node) (fill : JSValue) : Except String MatchArgs :=
  match node with
  | .unnamedArg none => .ok (.unnamed [fill])
  | .unnamedArg (some bounded) => do
    mergeArgs (← extractAllArgs bounded fill) (.unnamed [fill])
  | .namedArg name none => .ok (.named [(name, fill)])
  | .namedArg name (some bounded) => do
    mergeArgs (← extractAllArgs bounded fill) (.named [(name, fill)])
  | .unnamedSpreadArg => .ok (.unnamed [fill])
  | .namedSpreadArg name => .ok (.named [(name, fill)])
  | .tuple elements => extractAllArgsList elements fill (.unnamed [])
  | .object entries => extractAllArgsEntries entries fill (.unnamed [])
  | _ => .ok (.unnamed [])

def extractAllArgsList (nodes : List Node) (fill : JSValue) (acc : MatchArgs) :
    Except String MatchArgs :=
  match nodes with
  | [] => .ok acc
  | n :: rest => do
    extractAllArgsList rest fill (← mergeArgs acc (← extractAllArgs n fill))

def extractAllArgsEntries (entries : List (String × Node)) (fill : JSValue) (acc : MatchArgs) :
    Except String MatchArgs :=
  match entries with
  | [] => .ok acc
  | e :: rest => do
    extractAllArgsEntries rest fill (← mergeArgs acc (← extractAllArgs e.2 fill))

end

/-- The list captured by a sugared-ADT match: the own enumerable entries
whose key starts with `_` and whose remainder converts to a non-NaN
number, sorted by that number (`.filter(...).sort(...).map(...)` in the
source). -/
def adtCaptureList (value : JSValue) : List JSValue :=
  ((jsStableSort
      (fun a b => JSNum.sortLe (jsStringToNum (a.1.drop 1)) (jsStringToNum (b.1.drop 1)))
      (value.ownEnumEntries.filter fun p =>
        strStartsWith p.1 "_" && jsStringToNum (p.1.drop 1) != JSNum.nan)).map
    Prod.snd)

mutual

/-- `matchNode` from `src/runtime/match.ts`: the recursive interpretive
matcher.  `.ok none` is an ordinary mismatch (`null` in the source),
`.error` models a thrown exception (mixed named/unnamed captures, or an
unhandled node type at this position).  `matchTupleLoop`,
`matchObjEntries` and `matchOrLoop` are the source's `for` loops over
tuple elements, object entries and or-variants; `matchTupleLoop` keeps
the original `value.length`, `elements.length` and the running index `i`
because the source's slice bounds are computed from them. -/
def matchNode (value : JSValue) (node : Node) : Except String (Option MatchArgs) :=
  match node with
  | .nullLiteral =>
    .ok (match value with
         | .null => some (.unnamed [])
         | _ => none)
  | .undefinedLiteral =>
    .ok (match value with
         | .undef => some (.unnamed [])
         | _ => none)
  | .booleanLiteral b => .ok (if jsLiteralEq value (.bool b) then some (.unnamed []) else none)
  | .bigintLiteral i => .ok (if jsLiteralEq value (.bigint i) then some (.unnamed []) else none)
  | .numberLiteral n => .ok (if jsLiteralEq value (.num n) then some (.unnamed []) else none)
  | .stringLiteral s => .ok (if jsLiteralEq value (.str s) then some (.unnamed []) else none)
  | .wildcard ub => .ok (if validateUpperBound value ub then some (.unnamed []) else none)
  | .unnamedArg none => .ok (some (.unnamed [value]))
  | .unnamedArg (some bounded) => do
    match ← matchNode value bounded with
    | none => .ok none
    | some r => do .ok (some (← mergeArgs r (.unnamed [value])))
  | .namedArg name none => .ok (some (.named [(name, value)]))
  | .namedArg name (some bounded) => do
    match ← matchNode value bounded with
    | none => .ok none
    | some r => do .ok (some (← mergeArgs r (.named [(name, value)])))
  | .tuple elements =>
    match value with
    | .arr velems =>
      if !(elements.any Node.isSpreadName) && elements.length != velems.length then .ok none
      else if velems.length < elements.length - 1 then .ok none
      else matchTupleLoop velems.length elements.length 0 velems (.unnamed []) elements
    | _ => .ok none
  | .object entries =>
    if !value.isObjectLike then .ok none
    else matchObjEntries value entries (.unnamed []) entries
  | .sugaredADTRoot tag =>
    if !value.isObjectLike || !value.hasProp "_tag" ||
        !jsLiteralEq (value.getProp "_tag") (.str tag) then
      .ok none
    else .ok (some (.unnamed (adtCaptureList value)))
  | .orNode variants => matchOrLoop value variants
  | n => .error ("Cannot handle pattern type: " ++ n.typeName)

def matchTupleLoop (valueLen elemsLen i : ℕ) (rest : List JSValue) (acc : MatchArgs)
    (elems : List Node) : Except String (Option MatchArgs) :=
  match elems with
  | [] => .ok (some acc)
  | n :: restElems =>
    match n with
    | .wildcardSpread =>
      matchTupleLoop valueLen elemsLen (i + 1)
        (jsSliceFrom rest ((valueLen : ℤ) - ((elemsLen : ℤ) - (i : ℤ)))) acc restElems
    | .unnamedSpreadArg => do
      let captured := jsSlice rest 0 ((valueLen : ℤ) - ((elemsLen : ℤ) - (i : ℤ)))
      let acc2 ← mergeArgs acc (.unnamed [.arr captured])
      matchTupleLoop valueLen elemsLen (i + 1)
        (jsSliceFrom rest ((valueLen : ℤ) - ((elemsLen : ℤ) - (i : ℤ)))) acc2 restElems
    | .namedSpreadArg name => do
      let captured := jsSlice rest 0 ((valueLen : ℤ) - ((elemsLen : ℤ) - (i : ℤ)))
      let acc2 ← mergeArgs acc (.named [(name, .arr captured)])
      matchTupleLoop valueLen elemsLen (i + 1)
        (jsSliceFrom rest ((valueLen : ℤ) - ((elemsLen : ℤ) - (i : ℤ)))) acc2 restElems
    | _ => do
      match ← matchNode (rest.headD .undef) n with
      | none => .ok none
      | some r => do
        let acc2 ← mergeArgs acc r
        matchTupleLoop valueLen elemsLen (i + 1) (rest.drop 1) acc2 restElems

def matchObjEntries (value : JSValue) (allEntries : List (String × Node)) (acc : MatchArgs)
    (entries : List (String × Node)) : Except String (Option MatchArgs) :=
  match entries with
  | [] => .ok (some acc)
  | (key, n) :: rest =>
    match n with
    | .unnamedSpreadArg => do
      let restObj := value.ownEnumEntries.filter fun p =>
        !(allEntries.any fun e =>
          !e.2.isSpreadName && (if strEndsWith e.1 "?" then strDropRight e.1 1 else e.1) == p.1)
      let acc2 ← mergeArgs acc (.unnamed [.obj .plain restObj])
      matchObjEntries value allEntries acc2 rest
    | .namedSpreadArg name => do
      let restObj := value.ownEnumEntries.filter fun p =>
        !(allEntries.any fun e =>
          !e.2.isSpreadName && (if strEndsWith e.1 "?" then strDropRight e.1 1 else e.1) == p.1)
      let acc2 ← mergeArgs acc (.named [(name, .obj .plain restObj)])
      matchObjEntries value allEntries acc2 rest
    | _ =>
      if strEndsWith key "?" then do
        let realKey := strDropRight key 1
        if !value.hasProp realKey then do
          let acc2 ← mergeArgs acc (← extractAllArgs n .undef)
          matchObjEntries value allEntries acc2 rest
        else
          match ← matchNode (value.getProp realKey) n with
          | none => .ok none
          | some r => do
            let acc2 ← mergeArgs acc r
            matchObjEntries value allEntries acc2 rest
      else if !value.hasProp key then .ok none
      else do
        match ← matchNode (value.getProp key) n with
        | none => .ok none
        | some r => do
          let acc2 ← mergeArgs acc r
          matchObjEntries value allEntries acc2 rest

def matchOrLoop (value : JSValue) (variants : List Node) : Except String (Option MatchArgs) :=
  match variants with
  | [] => .ok none
  | v :: rest => do
    match ← matchNode value v with
    | some r => .ok (some r)
    | none => matchOrLoop value rest

end

/-! ## The post-parse validator (`src/runtime/checker.ts`) -/

mutual

/-- `checkNode` from `src/runtime/checker.ts`: rejects a Tuple/Object with
more than one spread-class child and an Or node one of whose variants has
an arg-class root, recursing into tuple elements, object entry values and
or-variants (and, notably, not into the bound node of an arg). -/
def checkNode (node : Node) : Except String Unit :=
  match node with
  | .tuple elements =>
    if (elements.filter Node.isSpreadName).length > 1 then
      .error "Tuple pattern cannot have more than one spread argument"
    else checkNodeList elements
  | .object entries =>
    if ((entries.map Prod.snd).filter Node.isSpreadName).length > 1 then
      .error "Object pattern cannot have more than one spread argument"
    else checkNodeEntries entries
  | .orNode variants =>
    if variants.any Node.isArgName then
      .error "Cannot use arguments in an “or” pattern"
    else checkNodeList variants
  | _ => .ok ()

def checkNodeList (nodes : List Node) : Except String Unit :=
  match nodes with
  | [] => .ok ()
  | n :: rest => do
    checkNode n
    checkNodeList rest

def checkNodeEntries (entries : List (String × Node)) : Except String Unit :=
  match entries with
  | [] => .ok ()
  | e :: rest => do
    checkNode e.2
    checkNodeEntries rest

end

/-! ## Observable outcome of running a case set -/

/-- The observable outcome of applying a matcher built from an ordered
case set to a value: either no case matched (the `NonExhaustiveError`,
carrying the input value), or case `index` was selected and its handler
invoked with the JavaScript argument list `callArgs`. -/
inductive Outcome where
  | noMatch (input : JSValue)
  | selected (index : ℕ) (callArgs : List JSValue)

/-- `invokeCaseFn` from `src/runtime/match.ts`, as the argument list the
handler receives: an empty capture container passes the whole value, a
non-empty unnamed list is spread positionally, a non-empty named record
is passed as one object. -/
def invokeArgs (value : JSValue) (args : MatchArgs) : List JSValue :=
  match args with
  | .unnamed vals => if vals.isEmpty then [value] else vals
  | .named fields => if fields.isEmpty then [value] else [.obj .plain fields]

/-- The per-call loop of the function returned by point-free `match`
(`src/match.ts`): try each parsed case in declaration order, return the
first match's invocation, throw `NonExhaustiveError` otherwise. -/
def interpretCasesFrom (value : JSValue) (i : ℕ) : List Node → Except String Outcome
  | [] => .ok (.noMatch value)
  | n :: rest => do
    match ← matchNode value n with
    | some r => .ok (.selected i (invokeArgs value r))
    | none => interpretCasesFrom value (i + 1) rest

/-- Interpret an ordered case set against a value. -/
def interpretCases (nodes : List Node) (value : JSValue) : Except String Outcome :=
  interpretCasesFrom value 0 nodes

/-! ## Parser-combinator runtime

Modelled from the spec: the runtime parser-combinator library
(`src/lib/parser/runtime`) is not part of the source snapshot; only its
type-level mirror (`src/lib/parser/static.ts`) and spec section 4.1
describe it.  Each combinator below implements the contract the spec
states ("remaining input" model, first-success choice, pre-consuming
whitespace, escape handling with literal passthrough), with the
type-level mirror fixing the details (keyword alphabets, `0`-first
decimal rule, sign-then-space).  Repetition loops that the source runs
on the shrinking input are given explicit fuel (`input length + 1`),
which never runs out because every iteration of this grammar consumes
at least one character. -/

/-- A parser takes the remaining input and yields the parsed data with
the unconsumed suffix, or `none` on failure. -/
def Parser (α : Type) : Type := List Char → Option (α × List Char)

def pfail : Parser α := fun _ => none

/-- `just(s)`: match the literal string `s` and return it. -/
def just (s : String) : Parser String := fun input =>
  if s.data.isPrefixOf input then some (s, input.drop s.data.length) else none

/-- `justAs(s, v)`: match the literal string `s` and return `v`. -/
def justAs (s : String) (v : α) : Parser α := fun input =>
  if s.data.isPrefixOf input then some (v, input.drop s.data.length) else none

/-- `keywordAs(s, alphabet, v)`: like `justAs` but the next character
must not belong to `alphabet` (longest-match keyword semantics). -/
def keywordAs (s : String) (alphabet : String) (v : α) : Parser α := fun input =>
  if s.data.isPrefixOf input then
    match input.drop s.data.length with
    | [] => some (v, [])
    | c :: rest => if alphabet.data.contains c then none else some (v, c :: rest)
  else none

/-- `map(p, f)`. -/
def pmap (p : Parser α) (f : α → β) : Parser β := fun input =>
  match p input with
  | some (a, r) => some (f a, r)
  | none => none

/-- `or(a, b)`: binary ordered choice. -/
def por (a b : Parser α) : Parser α := fun input =>
  match a input with
  | some res => some res
  | none => b input

/-- `choice([p1..pn])`: first successful parser wins. -/
def choice : List (Parser α) → Parser α
  | [] => fun _ => none
  | p :: rest => por p (fun input => choice rest input)

/-- `pair(a, b)`. -/
def pair (a : Parser α) (b : Parser β) : Parser (α × β) := fun input =>
  match a input with
  | some (x, r1) =>
    match b r1 with
    | some (y, r2) => some ((x, y), r2)
    | none => none
  | none => none

/-- `left(a, b)`: both, keep the first result. -/
def left (a : Parser α) (b : Parser β) : Parser α := pmap (pair a b) Prod.fst

/-- `right(a, b)`: both, keep the second result. -/
def right (a : Parser α) (b : Parser β) : Parser β := pmap (pair a b) Prod.snd

/-- `between(open, close, p)`. -/
def between (opn : Parser α) (cls : Parser β) (p : Parser γ) : Parser γ :=
  right opn (left p cls)

/-- `optional(p)`, returning an `Option` (the source's `Some`/`None`). -/
def optional (p : Parser α) : Parser (Option α) := fun input =>
  match p input with
  | some (a, r) => some (some a, r)
  | none => some (none, input)

def isSpaceChar (c : Char) : Bool :=
  c == ' ' || c == '\t' || c == '\n' || c == '\r'

/-- `space`: consume zero or more whitespace characters. -/
def space : Parser Unit := fun input => some ((), input.dropWhile isSpaceChar)

/-- `lexeme(p)`: strip leading whitespace, then `p`. -/
def lexeme (p : Parser α) : Parser α := right space p

/-- `symbol(s)`: strip leading whitespace, then the literal `s`. -/
def symbol (s : String) : Parser String := right space (just s)

/-- `symbolAs(s, v)`. -/
def symbolAs (s : String) (v : α) : Parser α := right space (justAs s v)

/-- `oneOf(chars)`: one character from the set, as a string. -/
def oneOf (chars : String) : Parser String := fun input =>
  match input with
  | c :: rest => if chars.data.contains c then some (String.mk [c], rest) else none
  | [] => none

/-- `manyChar(chars)`: zero or more characters from the set, as a string. -/
def manyChar (chars : String) : Parser String := fun input =>
  some (String.mk (input.takeWhile chars.data.contains),
        input.dropWhile chars.data.contains)

/-- `join`: concatenate a parsed pair of strings (the only use the
grammar makes of the source's `join`). -/
def join (p : Parser (String × String)) : Parser String :=
  pmap p fun pr => pr.1 ++ pr.2

/-- The tail loop of `sepBy`: repeatedly `sep` then `p`, accumulating. -/
def sepByRest (p : Parser α) (sep : Parser β) : ℕ → List α → List Char → List α × List Char
  | 0, acc, input => (acc, input)
  | fuel + 1, acc, input =>
    match sep input with
    | none => (acc, input)
    | some (_, r1) =>
      match p r1 with
      | none => (acc, input)
      | some (a, r2) => sepByRest p sep fuel (acc ++ [a]) r2

/-- `sepBy(p, sep)`: zero or more occurrences of `p` separated by `sep`. -/
def sepBy (p : Parser α) (sep : Parser β) : Parser (List α) := fun input =>
  match p input with
  | none => some ([], input)
  | some (a, r) => some (sepByRest p sep (r.length + 1) [a] r)

/-- The tail loop of `chainL1`: repeatedly `op` then `p`, folding left. -/
def chainL1Rest (p : Parser α) (op : Parser (α → α → α)) :
    ℕ → α → List Char → α × List Char
  | 0, acc, input => (acc, input)
  | fuel + 1, acc, input =>
    match op input with
    | none => (acc, input)
    | some (f, r1) =>
      match p r1 with
      | none => (acc, input)
      | some (a, r2) => chainL1Rest p op fuel (f acc a) r2

/-- `chainL1(term, op)`: left-associative fold of `op`-separated terms. -/
def chainL1 (p : Parser α) (op : Parser (α → α → α)) : Parser α := fun input =>
  match p input with
  | none => none
  | some (a, r) => some (chainL1Rest p op (r.length + 1) a r)

/-- The body of a quoted string literal: characters until the closing
quote, with `\n \r \t \b \f` escapes and literal passthrough of any other
escaped character (spec section 4.1). -/
def stringLiteralRest (quote : Char) : List Char → Option (List Char × List Char)
  | [] => none
  | c :: rest =>
    if c == quote then some ([], rest)
    else if c == '\\' then
      match rest with
      | [] => none
      | e :: rest2 =>
        let ch :=
          if e == 'n' then '\n'
          else if e == 'r' then '\r'
          else if e == 't' then '\t'
          else if e == 'b' then '\x08'
          else if e == 'f' then '\x0c'
          else e
        (stringLiteralRest quote rest2).map fun pr => (ch :: pr.1, pr.2)
    else (stringLiteralRest quote rest).map fun pr => (c :: pr.1, pr.2)

/-- `stringLiteral(quote)`: a quoted string literal (quotes consumed, not
included in the result). -/
def stringLiteral (quote : Char) : Parser String := fun input =>
  match input with
  | c :: rest =>
    if c == quote then
      (stringLiteralRest quote rest).map fun pr => (String.mk pr.1, pr.2)
    else none
  | [] => none

/-- `decimal`: a leading `0` parses as zero by itself, otherwise one or
more digits (the type-level mirror's rule). -/
def decimalNat : Parser ℕ := fun input =>
  match input with
  | '0' :: rest => some (0, rest)
  | _ =>
    let ds := input.takeWhile isDigitChar
    if ds.isEmpty then none else some (digitsToNat ds, input.dropWhile isDigitChar)

/-- `decimalBigInt`: same as `decimal` but as a bigint. -/
def decimalBigInt : Parser ℤ := fun input =>
  match decimalNat input with
  | some (n, r) => some ((n : ℤ), r)
  | none => none

/-- `float`: a decimal, optionally followed by `.` and digits (no
scientific notation). -/
def float : Parser ℚ := fun input =>
  match decimalNat input with
  | none => none
  | some (ip, r) =>
    match r with
    | '.' :: r2 =>
      let fp := r2.takeWhile isDigitChar
      if fp.isEmpty then some ((ip : ℚ), r)
      else some ((ip : ℚ) + (digitsToNat fp : ℚ) / ((10 : ℚ) ^ fp.length),
                 r2.dropWhile isDigitChar)
    | _ => some ((ip : ℚ), r)

/-- `signed` over a bigint parser: optional `+`/`-` prefix, each followed
by optional whitespace. -/
def signedInt (p : Parser ℤ) : Parser ℤ := fun input =>
  match input with
  | '-' :: rest =>
    (p (rest.dropWhile isSpaceChar)).map fun pr => (-pr.1, pr.2)
  | '+' :: rest => p (rest.dropWhile isSpaceChar)
  | _ => p input

/-- `signed` over the float parser, returning a JavaScript number: the
unary negation of zero is the negative zero. -/
def signedNum (p : Parser ℚ) : Parser JSNum := fun input =>
  match input with
  | '-' :: rest =>
    (p (rest.dropWhile isSpaceChar)).map fun pr =>
      (if pr.1 = 0 then JSNum.negZero else JSNum.fin (-pr.1), pr.2)
  | '+' :: rest => (p (rest.dropWhile isSpaceChar)).map fun pr => (JSNum.fin pr.1, pr.2)
  | _ => (p input).map fun pr => (JSNum.fin pr.1, pr.2)

/-- `upperChar`: a single uppercase letter, as a string. -/
def upperChar : Parser String := fun input =>
  match input with
  | c :: rest =>
    if decide ('A' ≤ c) && decide (c ≤ 'Z') then some (String.mk [c], rest) else none
  | [] => none

/-! ## The pattern grammar (`src/runtime/parser.ts`) -/

def letters : String := "ABCDEFGHIJKLMNOPQRSTUVWXYZabcdefghijklmnopqrstuvwxyz"
def lowers : String := "abcdefghijklmnopqrstuvwxyz"
def digits : String := "0123456789"

def nullLiteralParser : Parser Node := justAs "null" .nullLiteral

def undefinedLiteralParser : Parser Node := justAs "undefined" .undefinedLiteral

def booleanLiteralParser : Parser Node :=
  por (justAs "true" (.booleanLiteral true)) (justAs "false" (.booleanLiteral false))

def bigintLiteralParser : Parser Node :=
  pmap (left (signedInt decimalBigInt) (just "n")) fun v => .bigintLiteral v

def numberLiteralParser : Parser Node :=
  pmap (signedNum float) fun v => .numberLiteral v

def identifierParser : Parser String :=
  join (pair (oneOf (letters ++ "_$")) (manyChar (letters ++ digits ++ "_$")))

def lowerIdentifierParser : Parser String :=
  join (pair (oneOf (lowers ++ "_$")) (manyChar (letters ++ digits ++ "_$")))

def stringLiteralParser : Parser Node :=
  pmap (por (stringLiteral '\'') (stringLiteral '"')) fun v => .stringLiteral v

def validUpperBounds : List String :=
  ["string", "number", "boolean", "symbol", "bigint", "function", "object", "nonNullable",
   "Date", "RegExp", "Error", "ArrayBuffer", "Array", "Map", "Set", "WeakMap", "WeakSet",
   "Promise", "TypedArray", "DataView"]

def wildcardParser : Parser Node :=
  choice
    (justAs "*" (.wildcard "unknown") ::
      validUpperBounds.map fun t => keywordAs t (letters ++ "(") (Node.wildcard t))

def wildcardSpreadParser : Parser Node :=
  pmap (por (just "...*") (just "...")) fun _ => .wildcardSpread

def unnamedArgParser : Parser Node := justAs "_" (.unnamedArg none)

def unnamedSpreadArgParser : Parser Node := justAs "..._" .unnamedSpreadArg

def namedArgParser : Parser Node :=
  pmap lowerIdentifierParser fun v => .namedArg v none

def namedSpreadArgParser : Parser Node :=
  pmap
    (join (pair (right (just "...") (oneOf (lowers ++ "_$")))
      (manyChar (letters ++ digits ++ "_$"))))
    fun v => .namedSpreadArg v

def adtTagParser : Parser String :=
  join (pair upperChar (manyChar (letters ++ digits ++ "_$")))

/-- An object key: quoted string, identifier with optional trailing `?`,
followed by `:`. -/
def objectKeyParser : Parser String :=
  left
    (lexeme (choice
      [stringLiteral '\'', stringLiteral '"',
       join (pair identifierParser (symbol "?")), identifierParser]))
    (symbol ":")

mutual

/-- `orParser`: a left-chain of `|`-separated primary terms, flattening
consecutive `|` into one n-ary Or node. -/
def orParser : ℕ → Parser Node
  | 0 => pfail
  | fuel + 1 =>
    chainL1
      (lexeme (choice
        [nullLiteralParser, undefinedLiteralParser, booleanLiteralParser, bigintLiteralParser,
         numberLiteralParser, stringLiteralParser, wildcardParser, unnamedArgParser,
         namedArgParser, adtParser fuel, tupleParser fuel, objectParser fuel]))
      (symbolAs "|" fun acc node =>
        match acc with
        | .orNode vs => .orNode (vs ++ [node])
        | _ => .orNode [acc, node])

/-- `<or-expr> as _`. -/
def unnamedOrAliasParser : ℕ → Parser Node
  | 0 => pfail
  | fuel + 1 =>
    pmap (left (orParser fuel) (pair (symbol "as") (symbol "_"))) fun node =>
      .unnamedArg (some node)

/-- `<or-expr> as <name>`. -/
def namedOrAliasParser : ℕ → Parser Node
  | 0 => pfail
  | fuel + 1 =>
    pmap (pair (orParser fuel) (right (symbol "as") (lexeme lowerIdentifierParser)))
      fun pr => .namedArg pr.2 (some pr.1)

/-- The kind-adt style call form `Tag(p1, ..., pn)`, desugared to an
Object node with a `_tag` string literal and `_0..` positional entries. -/
def adtParser : ℕ → Parser Node
  | 0 => pfail
  | fuel + 1 =>
    pmap
      (pair adtTagParser
        (optional (left (right (symbol "(") (sepBy (orParser fuel) (symbol ","))) (symbol ")"))))
      fun pr =>
        let fields := pr.2.getD []
        .object (("_tag", Node.stringLiteral pr.1) ::
          fields.enum.map fun p => ("_" ++ toString p.1, p.2))

def tupleParser : ℕ → Parser Node
  | 0 => pfail
  | fuel + 1 =>
    pmap
      (between (symbol "[") (symbol "]")
        (sepBy
          (lexeme (choice
            [unnamedOrAliasParser fuel, namedOrAliasParser fuel, orParser fuel,
             unnamedSpreadArgParser, namedSpreadArgParser, wildcardSpreadParser]))
          (symbol ",")))
      fun elements => .tuple elements

def objectParser : ℕ → Parser Node
  | 0 => pfail
  | fuel + 1 =>
    between (symbol "\x7b") (symbol "\x7d")
      (pmap
        (sepBy
          (choice
            [pair objectKeyParser
               (choice [unnamedOrAliasParser fuel, namedOrAliasParser fuel, orParser fuel]),
             pmap (lexeme identifierParser) fun key => (key, Node.namedArg key none),
             lexeme (justAs "..._" ("..._", Node.unnamedSpreadArg)),
             pmap (lexeme (right (just "...") (lexeme lowerIdentifierParser))) fun key =>
               ("..." ++ key, Node.namedSpreadArg key)])
          (symbol ","))
        fun entries => .object entries)

end

/-- `parsePattern` from `src/runtime/parser.ts`: the sugared bare-tag
shortcut first (when it consumes everything but whitespace and the tag
is not a reserved wildcard keyword), then the main grammar followed by
trailing whitespace, requiring full consumption; a successful parse is
validated by `checkNode` before being returned.  `.ok none` models the
source's `null` (syntax failure); `.error` models the validator's thrown
error.  The parse cache is modelled separately (`Cache`): it only
memoizes this pure function's results.  The fuel bounds the grammar's
nesting depth; `4 * (length + 1)` always suffices because every nesting
level consumes input. -/
def mainParseRun (cs : List Char) : Option (Node × List Char) :=
  left
    (choice
      [unnamedOrAliasParser (4 * (cs.length + 1)), namedOrAliasParser (4 * (cs.length + 1)),
       orParser (4 * (cs.length + 1))])
    space cs

/-- Whether `parsePattern`'s sugared bare-tag shortcut fires for this
input, and with which tag: the tag grammar must succeed leaving only
whitespace, and the tag must not be a reserved wildcard keyword. -/
def adtShortcut (pattern : String) : Option String :=
  match adtTagParser pattern.data with
  | some (tag, rest) =>
    if rest.all isWsChar && !validUpperBounds.contains tag then some tag else none
  | none => none

def parsePattern (pattern : String) : Except String (Option Node) :=
  let cs := pattern.data
  let mainPath : Except String (Option Node) :=
    match mainParseRun cs with
    | none => .ok none
    | some (node, rest) =>
      if !rest.isEmpty then .ok none
      else do
        checkNode node
        .ok (some node)
  match adtTagParser cs with
  | some (tag, rest) =>
    if rest.all isWsChar then
      if validUpperBounds.contains tag then mainPath
      else .ok (some (.sugaredADTRoot tag))
    else mainPath
  | none => mainPath

/-- The construction phase of point-free `match` (`src/match.ts`): parse
every pattern in declaration order, throwing on a syntax failure and
running the validator, collecting the parsed cases. -/
def matchPointFreeConstruct : List String → Except String (List Node)
  | [] => .ok []
  | p :: rest => do
    match ← parsePattern p with
    | none => .error ("Invalid pattern: " ++ p)
    | some node => do
      checkNode node
      .ok (node :: (← matchPointFreeConstruct rest))

/-! ## The JIT compiler model (`src/runtime/compile.ts`)

The compiler emits JavaScript source text — one `if (<condition>) return
cases[i](<args>);` block per pattern, where conditions and argument
getters are path expressions relative to the match target — and turns the
text into a function with `new Function`.  We embed the emitted
predicates and getters as syntax trees mirroring the generated
expressions one-to-one, and give them their JavaScript evaluation
semantics; indentation and other purely textual aspects are not
modelled.  One behaviour of the source is load-bearing for the
embedding: `joinPath` handles a negative (post-spread) index by calling
itself with *unchanged* arguments, so emitting any path that contains a
negative index never terminates (a stack-overflow `RangeError` at
compile time); `joinPath` below models that call as an error. -/

/-- One component of an emitted path expression. -/
inductive PathPart where
  | key (k : String)
  | idx (i : ℕ)
  | negIdx (k : ℕ)
  deriving Repr

def PathPart.isNeg : PathPart → Bool
  | .negIdx _ => true
  | _ => false

/-- `joinPath` from `src/runtime/compile.ts`.  On a path containing a
negative index the source recurses with unchanged arguments
(`joinPath(matchTarget, path)` inside the loop body), which overflows the
call stack; everything else renders the path. -/
def joinPath (path : List PathPart) : Except String (List PathPart) :=
  if path.any PathPart.isNeg then
    .error "RangeError: Maximum call stack size exceeded"
  else .ok path

/-- Evaluate an emitted path expression against the match target.
`negIdx` never reaches evaluation (its emission fails); property access
on primitives yields `undefined` as in JavaScript non-throwing cases. -/
def evalPath (target : JSValue) (parts : List PathPart) : JSValue :=
  parts.foldl
    (fun v p =>
      match p with
      | .key k => v.getProp k
      | .idx i => v.getProp (toString i)
      | .negIdx _ => .undef)
    target

/-- An emitted condition, one constructor per predicate string shape the
compiler generates. -/
inductive Pred where
  | eqNull (p : List PathPart)
  | eqUndefined (p : List PathPart)
  | eqBool (p : List PathPart) (b : Bool)
  | eqBigInt (p : List PathPart) (i : ℤ)
  | objectIs (p : List PathPart) (n : JSNum)
  | eqStr (p : List PathPart) (s : String)
  | typeofEq (p : List PathPart) (t : String)
  | isObjectLike (p : List PathPart)
  | isNonNullable (p : List PathPart)
  | instanceOf (p : List PathPart) (c : JSClass)
  | isArray (p : List PathPart)
  | isTypedArray (p : List PathPart)
  | lengthEq (p : List PathPart) (n : ℕ)
  | lengthGe (p : List PathPart) (n : ℕ)
  | keyIn (k : String) (p : List PathPart)
  | tagIs (p : List PathPart) (tag : String)
  | orGroup (disjuncts : List (List Pred))
  | optionalGuard (k : String) (p : List PathPart) (inner : List Pred)

/-- An emitted argument getter, one constructor per expression shape. -/
inductive Getter where
  | path (p : List PathPart)
  | sliceTo (p : List PathPart) (i : ℕ) (minus : ℕ)
  | objRest (p : List PathPart) (claimed : List String)
  | optPath (k : String) (base : List PathPart)
  | optGuard (k : String) (base : List PathPart) (g : Getter)
  | adtSpread (p : List PathPart)

mutual

/-- Evaluate one generated predicate against the match target. -/
def evalPred (target : JSValue) (pred : Pred) : Bool :=
  match pred with
  | .eqNull p =>
    match evalPath target p with
    | .null => true
    | _ => false
  | .eqUndefined p =>
    match evalPath target p with
    | .undef => true
    | _ => false
  | .eqBool p b => jsLiteralEq (evalPath target p) (.bool b)
  | .eqBigInt p i => jsLiteralEq (evalPath target p) (.bigint i)
  | .objectIs p n => jsLiteralEq (evalPath target p) (.num n)
  | .eqStr p s => jsLiteralEq (evalPath target p) (.str s)
  | .typeofEq p t => (evalPath target p).typeofStr == t
  | .isObjectLike p => (evalPath target p).isObjectLike
  | .isNonNullable p =>
    match evalPath target p with
    | .null => false
    | .undef => false
    | _ => true
  | .instanceOf p c => (evalPath target p).instanceOfCls c
  | .isArray p =>
    match evalPath target p with
    | .arr _ => true
    | _ => false
  | .isTypedArray p =>
    ((evalPath target p).instanceOfCls .typedArray ||
        (evalPath target p).instanceOfCls .dataView) &&
      !((evalPath target p).instanceOfCls .dataView)
  | .lengthEq p n => jsLiteralEq ((evalPath target p).getProp "length") (.num (.fin n))
  | .lengthGe p n =>
    match (evalPath target p).getProp "length" with
    | .num (.fin q) => decide ((n : ℚ) ≤ q)
    | _ => false
  | .keyIn k p => (evalPath target p).hasProp k
  | .tagIs p tag =>
    (evalPath target p).hasProp "_tag" &&
      jsLiteralEq ((evalPath target p).getProp "_tag") (.str tag)
  | .orGroup ds => evalDisjuncts target ds
  | .optionalGuard k p inner => !(evalPath target p).hasProp k || evalPredConj target inner

/-- A `&&`-joined predicate list. -/
def evalPredConj (target : JSValue) (preds : List Pred) : Bool :=
  match preds with
  | [] => true
  | p :: rest => evalPred target p && evalPredConj target rest

/-- A `||`-joined list of conjunctions (an Or node's condition). -/
def evalDisjuncts (target : JSValue) (ds : List (List Pred)) : Bool :=
  match ds with
  | [] => false
  | c :: rest => evalPredConj target c || evalDisjuncts target rest

end

/-- Evaluate a generated argument getter; `adtSpread` yields the whole
spread list, every other shape a single value. -/
def evalGetter (target : JSValue) : Getter → List JSValue
  | .path p => [evalPath target p]
  | .sliceTo p i minus =>
    match evalPath target p with
    | .arr elems => [.arr (jsSlice elems i ((elems.length : ℤ) - (minus : ℤ)))]
    | _ => [.undef]
  | .objRest p claimed =>
    [.obj .plain ((evalPath target p).ownEnumEntries.filter fun e => !claimed.contains e.1)]
  | .optPath k base =>
    [if (evalPath target base).hasProp k then (evalPath target base).getProp k else .undef]
  | .optGuard k base g =>
    if (evalPath target base).hasProp k then evalGetter target g else [.undef]
  | .adtSpread p => adtCaptureList (evalPath target p)

/-- `compileUpperBound` from `src/runtime/compile.ts`. -/
def compileUpperBound (path : List PathPart) (ub : String) :
    Except String (Option Pred) :=
  if ub == "unknown" then .ok none
  else do
    let p ← joinPath path
    if ub == "string" then .ok (some (.typeofEq p "string"))
    else if ub == "number" then .ok (some (.typeofEq p "number"))
    else if ub == "boolean" then .ok (some (.typeofEq p "boolean"))
    else if ub == "symbol" then .ok (some (.typeofEq p "symbol"))
    else if ub == "bigint" then .ok (some (.typeofEq p "bigint"))
    else if ub == "function" then .ok (some (.typeofEq p "function"))
    else if ub == "object" then .ok (some (.isObjectLike p))
    else if ub == "nonNullable" then .ok (some (.isNonNullable p))
    else if ub == "Date" then .ok (some (.instanceOf p .date))
    else if ub == "RegExp" then .ok (some (.instanceOf p .regexp))
    else if ub == "Error" then .ok (some (.instanceOf p .error))
    else if ub == "Array" then .ok (some (.isArray p))
    else if ub == "Map" then .ok (some (.instanceOf p .map))
    else if ub == "Set" then .ok (some (.instanceOf p .set))
    else if ub == "WeakMap" then .ok (some (.instanceOf p .weakMap))
    else if ub == "WeakSet" then .ok (some (.instanceOf p .weakSet))
    else if ub == "Promise" then .ok (some (.instanceOf p .promise))
    else if ub == "TypedArray" then .ok (some (.isTypedArray p))
    else if ub == "ArrayBuffer" then .ok (some (.instanceOf p .arrayBuffer))
    else if ub == "DataView" then .ok (some (.instanceOf p .dataView))
    else .error ("Unknown upper bound: " ++ ub)

mutual

/-- `compileNode` from `src/runtime/compile.ts`: the predicates and
argument getters emitted for a node at a path.  `isArgsTarget` is
`matchTarget === "args"` (the variadic target shape). -/
def compileNode (isArgsTarget : Bool) (path : List PathPart) (node : Node) :
    Except String (List Pred × List (String × Getter)) :=
  match node with
  | .nullLiteral => do .ok ([.eqNull (← joinPath path)], [])
  | .undefinedLiteral => do .ok ([.eqUndefined (← joinPath path)], [])
  | .bigintLiteral i => do .ok ([.eqBigInt (← joinPath path) i], [])
  | .numberLiteral n => do .ok ([.objectIs (← joinPath path) n], [])
  | .booleanLiteral b => do .ok ([.eqBool (← joinPath path) b], [])
  | .stringLiteral s => do .ok ([.eqStr (← joinPath path) s], [])
  | .wildcard ub => do
    match ← compileUpperBound path ub with
    | some pr => .ok ([pr], [])
    | none => .ok ([], [])
  | .unnamedArg none => do .ok ([], [("_", .path (← joinPath path))])
  | .unnamedArg (some bounded) => do
    let (preds, args) ← compileNode isArgsTarget path bounded
    .ok (preds, args ++ [("_", .path (← joinPath path))])
  | .namedArg name none => do .ok ([], [(name, .path (← joinPath path))])
  | .namedArg name (some bounded) => do
    let (preds, args) ← compileNode isArgsTarget path bounded
    .ok (preds, args ++ [(name, .path (← joinPath path))])
  | .tuple elements => do
    let p ← joinPath path
    let preds0 : List Pred := if isArgsTarget then [] else [.isArray p]
    let preds1 := preds0 ++
      [if !(elements.any Node.isSpreadName) then Pred.lengthEq p elements.length
       else Pred.lengthGe p (elements.length - 1)]
    compileTupleLoop isArgsTarget path elements.length 0 false preds1 [] elements
  | .object entries => do
    let preds0 ←
      (do
        match ← compileUpperBound path "object" with
        | some pr => .ok [pr]
        | none => .ok [])
    compileObjLoop isArgsTarget path entries preds0 [] entries
  | .sugaredADTRoot tag => do
    let p ← joinPath path
    let preds0 ←
      (do
        match ← compileUpperBound path "object" with
        | some pr => .ok [pr]
        | none => .ok [])
    .ok (preds0 ++ [.tagIs p tag], [("_", .adtSpread p)])
  | .orNode variants => do
    let ds ← compileOrLoop isArgsTarget path [] variants
    .ok ([.orGroup ds], [])
  | n => .error ("Cannot handle pattern type: " ++ n.typeName)
termination_by sizeOf node

def compileTupleLoop (isArgsTarget : Bool) (path : List PathPart) (elemsLen i : ℕ)
    (visitedSpread : Bool) (preds : List Pred) (args : List (String × Getter))
    (elems : List Node) : Except String (List Pred × List (String × Getter)) :=
  match elems with
  | [] => .ok (preds, args)
  | n :: restElems =>
    match n with
    | .wildcardSpread =>
      compileTupleLoop isArgsTarget path elemsLen (i + 1) true preds args restElems
    | .unnamedSpreadArg => do
      let p ← joinPath path
      let g := Getter.sliceTo p i (if i == elemsLen - 1 then 0 else elemsLen - i - 1)
      compileTupleLoop isArgsTarget path elemsLen (i + 1) true preds
        (args ++ [("_", g)]) restElems
    | .namedSpreadArg name => do
      let p ← joinPath path
      let g := Getter.sliceTo p i (if i == elemsLen - 1 then 0 else elemsLen - i - 1)
      compileTupleLoop isArgsTarget path elemsLen (i + 1) true preds
        (args ++ [(name, g)]) restElems
    | m => do
      let part := if visitedSpread then PathPart.negIdx (elemsLen - i) else PathPart.idx i
      let (subPreds, subArgs) ← compileNode isArgsTarget (path ++ [part]) m
      compileTupleLoop isArgsTarget path elemsLen (i + 1) visitedSpread
        (preds ++ subPreds) (args ++ subArgs) restElems
termination_by sizeOf elems

def compileObjLoop (isArgsTarget : Bool) (path : List PathPart)
    (allEntries : List (String × Node)) (preds : List Pred)
    (args : List (String × Getter)) (entries : List (String × Node)) :
    Except String (List Pred × List (String × Getter)) :=
  match entries with
  | [] => .ok (preds, args)
  | (key, n) :: rest =>
    match n with
    | .unnamedSpreadArg => do
      let p ← joinPath path
      let matchedKeys := (allEntries.filter fun e => !e.2.isSpreadName).map fun e =>
        if strEndsWith e.1 "?" then strDropRight e.1 1 else e.1
      compileObjLoop isArgsTarget path allEntries preds
        (args ++ [("_", .objRest p matchedKeys)]) rest
    | .namedSpreadArg name => do
      let p ← joinPath path
      let matchedKeys := (allEntries.filter fun e => !e.2.isSpreadName).map fun e =>
        if strEndsWith e.1 "?" then strDropRight e.1 1 else e.1
      compileObjLoop isArgsTarget path allEntries preds
        (args ++ [(name, .objRest p matchedKeys)]) rest
    | .unnamedArg none =>
      if strEndsWith key "?" then do
        let realKey := strDropRight key 1
        let p ← joinPath path
        compileObjLoop isArgsTarget path allEntries preds
          (args ++ [("_", .optPath realKey p)]) rest
      else do
        let p ← joinPath path
        let (subPreds, subArgs) ← compileNode isArgsTarget (path ++ [.key key]) (.unnamedArg none)
        compileObjLoop isArgsTarget path allEntries
          (preds ++ [.keyIn key p] ++ subPreds) (args ++ subArgs) rest
    | .namedArg name none =>
      if strEndsWith key "?" then do
        let realKey := strDropRight key 1
        let p ← joinPath path
        compileObjLoop isArgsTarget path allEntries preds
          (args ++ [(name, .optPath realKey p)]) rest
      else do
        let p ← joinPath path
        let (subPreds, subArgs) ←
          compileNode isArgsTarget (path ++ [.key key]) (.namedArg name none)
        compileObjLoop isArgsTarget path allEntries
          (preds ++ [.keyIn key p] ++ subPreds) (args ++ subArgs) rest
    | .unnamedArg (some bounded) =>
      if strEndsWith key "?" then do
        let realKey := strDropRight key 1
        let p ← joinPath path
        let (bPreds, bArgs) ← compileNode isArgsTarget (path ++ [.key realKey]) bounded
        let wrapped := bArgs.map fun a => (a.1, Getter.optGuard realKey p a.2)
        compileObjLoop isArgsTarget path allEntries
          (preds ++ [.optionalGuard realKey p bPreds])
          (args ++ wrapped ++ [("_", .optPath realKey p)]) rest
      else do
        let p ← joinPath path
        let (subPreds, subArgs) ←
          compileNode isArgsTarget (path ++ [.key key]) (.unnamedArg (some bounded))
        compileObjLoop isArgsTarget path allEntries
          (preds ++ [.keyIn key p] ++ subPreds) (args ++ subArgs) rest
    | .namedArg name (some bounded) =>
      if strEndsWith key "?" then do
        let realKey := strDropRight key 1
        let p ← joinPath path
        let (bPreds, bArgs) ← compileNode isArgsTarget (path ++ [.key realKey]) bounded
        let wrapped := bArgs.map fun a => (a.1, Getter.optGuard realKey p a.2)
        compileObjLoop isArgsTarget path allEntries
          (preds ++ [.optionalGuard realKey p bPreds])
          (args ++ wrapped ++ [(name, .optPath realKey p)]) rest
      else do
        let p ← joinPath path
        let (subPreds, subArgs) ←
          compileNode isArgsTarget (path ++ [.key key]) (.namedArg name (some bounded))
        compileObjLoop isArgsTarget path allEntries
          (preds ++ [.keyIn key p] ++ subPreds) (args ++ subArgs) rest
    | m =>
      if strEndsWith key "?" then do
        let realKey := strDropRight key 1
        let p ← joinPath path
        let (subPreds, subArgs) ← compileNode isArgsTarget (path ++ [.key realKey]) m
        let wrapped := subArgs.map fun a => (a.1, Getter.optGuard realKey p a.2)
        compileObjLoop isArgsTarget path allEntries
          (preds ++ [.optionalGuard realKey p subPreds]) (args ++ wrapped) rest
      else do
        let p ← joinPath path
        let (subPreds, subArgs) ← compileNode isArgsTarget (path ++ [.key key]) m
        compileObjLoop isArgsTarget path allEntries
          (preds ++ [.keyIn key p] ++ subPreds) (args ++ subArgs) rest
termination_by sizeOf entries

def compileOrLoop (isArgsTarget : Bool) (path : List PathPart) (acc : List (List Pred))
    (variants : List Node) : Except String (List (List Pred)) :=
  match variants with
  | [] => .ok acc
  | v :: rest => do
    let (subPreds, _) ← compileNode isArgsTarget path v
    compileOrLoop isArgsTarget path (acc ++ [subPreds]) rest
termination_by sizeOf variants

end

/-- A generated `if`-branch: `cond = none` is an unconditional branch
(the source's `hasDefault` case), otherwise a `&&`-joined condition. -/
structure CompiledCase where
  cond : Option (List Pred)
  args : List (String × Getter)

/-- `Object`-literal construction (later duplicate keys overwrite in
place). -/
def mkObjLiteral (l : List (String × JSValue)) : List (String × JSValue) :=
  l.foldl (fun acc p => jsRecordSet acc p.1 p.2) []

/-- Whether an emitted argument list is all-unnamed, all-named or empty —
`constructArgs` throws on a mix at compile (generation) time. -/
def argsShapeOk (args : List (String × Getter)) : Bool :=
  args.isEmpty || args.all (fun a => a.1 == "_") || args.all fun a => a.1 != "_"

/-- Evaluate `constructArgs`' emitted call-argument expression: no
captures passes the whole target, all-unnamed getters are spread
positionally, all-named getters build one object literal. -/
def constructCallArgs (target : JSValue) (args : List (String × Getter)) :
    Except String (List JSValue) :=
  if args.isEmpty then .ok [target]
  else if args.all (fun a => a.1 == "_") then
    .ok (args.foldl (fun acc a => acc ++ evalGetter target a.2) [])
  else if args.all (fun a => a.1 != "_") then
    .ok [.obj .plain (mkObjLiteral (args.map fun a =>
      (a.1, (evalGetter target a.2).headD .undef)))]
  else .error "Pattern matching error: Cannot mix named and unnamed arguments in a pattern"

/-- The per-pattern generation loop of `compile`: each pattern
contributes one branch; a pattern with no runtime condition becomes an
unconditional branch and generation stops (`hasDefault` + `break`).
The mixed-captures check of `constructArgs` runs here, at generation
time. -/
def compileCasesFrom (isArgsTarget : Bool) : List Node → Except String (List CompiledCase)
  | [] => .ok []
  | node :: rest => do
    let (preds, args) ← compileNode isArgsTarget [] node
    if !argsShapeOk args then
      .error "Pattern matching error: Cannot mix named and unnamed arguments in a pattern"
    else if preds.isEmpty then .ok [{ cond := none, args := args }]
    else do
      .ok ({ cond := some preds, args := args } :: (← compileCasesFrom isArgsTarget rest))

/-- `compile` from `src/runtime/compile.ts`, up to the generated
function: parse every pattern (throwing `Invalid pattern` on a syntax
failure, and propagating the validator's error), then generate the
branches.  The per-pattern fragment cache and whole-set function cache
only memoize this deterministic computation and are modelled separately
by `Cache`. -/
def compileModel (patterns : List String) (variadic : Bool) :
    Except String (List CompiledCase) := do
  let nodes ← patterns.mapM fun p => do
    match ← parsePattern p with
    | none => Except.error ("Invalid pattern: " ++ p)
    | some n => Except.ok n
  compileCasesFrom variadic nodes

/-- The body of the generated function: try each branch in order, return
the first whose condition holds, otherwise throw `NonExhaustiveError`
with the input value. -/
def runCompiledFrom (value : JSValue) (i : ℕ) : List CompiledCase → Except String Outcome
  | [] => .ok (.noMatch value)
  | c :: rest =>
    match c.cond with
    | none => do .ok (.selected i (← constructCallArgs value c.args))
    | some preds =>
      if evalPredConj value preds then do
        .ok (.selected i (← constructCallArgs value c.args))
      else runCompiledFrom value (i + 1) rest

/-- Run a compiled (non-variadic) case set against a value. -/
def runCompiled (cases : List CompiledCase) (value : JSValue) : Except String Outcome :=
  runCompiledFrom value 0 cases

/-! ## The FIFO cache subsystem (`src/cache.ts`)

One `Cache` class backs the parse, compile and match caches; keys are
strings in all three. -/

/-- The cache state: the backing `Map` (in insertion order, set-in-place)
and the auxiliary FIFO queue. -/
structure Cache (V : Type) where
  maxSize : ℕ
  data : List (String × V)
  queue : List String

/-- A freshly constructed cache of the given capacity. -/
def Cache.empty (V : Type) (maxSize : ℕ) : Cache V := ⟨maxSize, [], []⟩

/-- `Map.prototype.get`. -/
def Cache.get (c : Cache V) (k : String) : Option V :=
  (c.data.find? fun p => p.1 == k).map Prod.snd

/-- `Map.prototype.set`: an existing key is updated in place, a new key
is appended. -/
def mapSet (data : List (String × V)) (k : String) (v : V) : List (String × V) :=
  if data.any fun p => p.1 == k then
    data.map fun p => if p.1 == k then (p.1, v) else p
  else data ++ [(k, v)]

/-- One `evict()`: shift the queue; `if (key)` — the deletion is skipped
for a falsy key, and the empty string is falsy. -/
def evictOnce (data : List (String × V)) (queue : List String) :
    List (String × V) × List String :=
  match queue with
  | [] => (data, [])
  | k :: rest => (if k == "" then data else data.filter fun p => p.1 != k, rest)

/-- The `while (this._data.size > this._maxSize) this.evict()` loop.  The
queue length bounds the iteration count; were the queue to empty while
the map is still oversized (unreachable through the public operations)
the source would spin forever, which the fuel cuts off. -/
def evictLoop (maxSize : ℕ) :
    ℕ → List (String × V) → List String → List (String × V) × List String
  | 0, data, queue => (data, queue)
  | fuel + 1, data, queue =>
    if data.length ≤ maxSize then (data, queue)
    else
      let dq := evictOnce data queue
      evictLoop maxSize fuel dq.1 dq.2

/-- `Cache.set`: store the value, push the key onto the FIFO queue
unconditionally, then evict while over capacity. -/
def Cache.set (c : Cache V) (k : String) (v : V) : Cache V :=
  ⟨c.maxSize,
   (evictLoop c.maxSize (c.queue ++ [k]).length (mapSet c.data k v) (c.queue ++ [k])).1,
   (evictLoop c.maxSize (c.queue ++ [k]).length (mapSet c.data k v) (c.queue ++ [k])).2⟩

/-- The `maxSize` setter (`setCacheLimit`): shrink and evict immediately
while over the new capacity. -/
def Cache.setMaxSize (c : Cache V) (size : ℕ) : Cache V :=
  ⟨size, (evictLoop size c.queue.length c.data c.queue).1,
   (evictLoop size c.queue.length c.data c.queue).2⟩


/-! ## Predicates and lemmas for the validator claims -/

mutual

/-- Whether an arg-capturing node occurs anywhere in a subtree (through
every edge, including the bound node of an alias). -/
def nodeContainsArg : Node → Bool
  | .unnamedArg none => true
  | .unnamedArg (some b) => true || nodeContainsArg b
  | .namedArg _ none => true
  | .namedArg _ (some b) => true || nodeContainsArg b
  | .unnamedSpreadArg => true
  | .namedSpreadArg _ => true
  | .tuple elems => nodeListContainsArg elems
  | .object entries => nodeEntriesContainArg entries
  | .orNode variants => nodeListContainsArg variants
  | _ => false

def nodeListContainsArg : List Node → Bool
  | [] => false
  | n :: rest => nodeContainsArg n || nodeListContainsArg rest

def nodeEntriesContainArg : List (String × Node) → Bool
  | [] => false
  | e :: rest => nodeContainsArg e.2 || nodeEntriesContainArg rest

end

mutual

/-- The antecedent of the claim, over a whole AST: some Tuple/Object node
with two or more spread-class children, or some Or node with an
arg-capturing node anywhere inside a variant's subtree. -/
def claimBad : Node → Bool
  | .unnamedArg (some b) => claimBad b
  | .namedArg _ (some b) => claimBad b
  | .tuple elems =>
    decide ((elems.filter Node.isSpreadName).length > 1) || claimBadList elems
  | .object entries =>
    decide (((entries.map Prod.snd).filter Node.isSpreadName).length > 1) ||
      claimBadEntries entries
  | .orNode variants => nodeListContainsArg variants || claimBadList variants
  | _ => false

def claimBadList : List Node → Bool
  | [] => false
  | n :: rest => claimBad n || claimBadList rest

def claimBadEntries : List (String × Node) → Bool
  | [] => false
  | e :: rest => claimBad e.2 || claimBadEntries rest

end

mutual

/-- What the implemented validator actually rejects: a violation
reachable from the root through tuple-element, object-entry and
or-variant edges only, where the Or rule looks only at the *root*
constructor of each variant. -/
def checkReject : Node → Bool
  | .tuple elems =>
    decide ((elems.filter Node.isSpreadName).length > 1) || checkRejectList elems
  | .object entries =>
    decide (((entries.map Prod.snd).filter Node.isSpreadName).length > 1) ||
      checkRejectEntries entries
  | .orNode variants => variants.any Node.isArgName || checkRejectList variants
  | _ => false

def checkRejectList : List Node → Bool
  | [] => false
  | n :: rest => checkReject n || checkRejectList rest

def checkRejectEntries : List (String × Node) → Bool
  | [] => false
  | e :: rest => checkReject e.2 || checkRejectEntries rest

end

/-- The key predicate in the claim words: an underscore followed by a
decimal integer numeral (`_<integer>`).  This definition follows the
spec text, not the source, and exists only to be compared with the
filter the source actually applies in `adtCaptureList`. -/
def isUnderscoreIntegerKey (key : String) : Bool :=
  strStartsWith key "_" && !(key.drop 1).isEmpty && (key.drop 1).data.all isDigitChar

/-- The capture list in the claim words: values of the keys matching
`_<integer>`, sorted numerically by that integer.  To be compared with
`adtCaptureList`. -/
def claimCaptureList (value : JSValue) : List JSValue :=
  ((jsStableSort
      (fun a b => decide (digitsToNat (a.1.drop 1).data ≤ digitsToNat (b.1.drop 1).data))
      (value.ownEnumEntries.filter fun p => isUnderscoreIntegerKey p.1)).map
    Prod.snd)

/-- Replace every value of a field record by `undefined`, keeping keys
and order. -/
def fillFields (l : List (String × JSValue)) : List (String × JSValue) :=
  l.map fun p => (p.1, JSValue.undef)

/-- Replace every captured value by `undefined`, keeping the capture
shape (arity for unnamed captures, keys for named ones). -/
def MatchArgs.fillUndef : MatchArgs → MatchArgs
  | .unnamed l => .unnamed (l.map fun _ => JSValue.undef)
  | .named l => .named (fillFields l)

mutual

/-- A node whose successful-match capture shape does not depend on the
matched value: sugared-ADT roots (whose captures are read off the
value's keys) are excluded, and every Or node must be capture-free in
all its variants, since an Or yields the captures of whichever variant
happened to match. -/
def shapeStable : Node → Bool
  | .unnamedArg none => true
  | .unnamedArg (some b) => shapeStable b
  | .namedArg _ none => true
  | .namedArg _ (some b) => shapeStable b
  | .tuple es => shapeStableList es
  | .object es => shapeStableEntries es
  | .orNode vs => !nodeListContainsArg vs && shapeStableList vs
  | .sugaredADTRoot _ => false
  | _ => true

def shapeStableList : List Node → Bool
  | [] => true
  | n :: rest => shapeStable n && shapeStableList rest

def shapeStableEntries : List (String × Node) → Bool
  | [] => true
  | e :: rest => shapeStable e.2 && shapeStableEntries rest

end

/-- The three spread-class constructors are exactly the ones whose type
name contains `"Spread"`. -/
@[simp]
theorem Node.isSpreadName_eq (n : Node) :
    n.isSpreadName =
      (match n with
       | .unnamedSpreadArg => true
       | .namedSpreadArg _ => true
       | .wildcardSpread => true
       | _ => false) := by
  cases n <;> rfl

/-- The four arg-class constructors are exactly the ones whose type name
contains `"Arg"`. -/
@[simp]
theorem Node.isArgName_eq (n : Node) :
    n.isArgName =
      (match n with
       | .unnamedArg _ => true
       | .unnamedSpreadArg => true
       | .namedArg _ _ => true
       | .namedSpreadArg _ => true
       | _ => false) := by
  cases n <;> rfl

/-! ## Supporting lemmas for the cache theorems -/

theorem evictLoop_of_le {V : Type} (maxSize : ℕ) (data : List (String × V))
    (q : List String) (h : data.length ≤ maxSize) :
    ∀ fuel, evictLoop maxSize fuel data q = (data, q) := by
  intro fuel; cases fuel <;> simp [evictLoop, h]

theorem evictLoop_step {V : Type} (maxSize fuel : ℕ) (data : List (String × V))
    (q : List String) (h : ¬data.length ≤ maxSize) :
    evictLoop maxSize (fuel + 1) data q =
      evictLoop maxSize fuel (evictOnce data q).1 (evictOnce data q).2 := by
  conv => lhs; rw [evictLoop]
  rw [if_neg h]

theorem mapSet_fresh {V : Type} (data : List (String × V)) (k : String) (v : V)
    (h : (data.any fun p => p.1 == k) = false) :
    mapSet data k v = data ++ [(k, v)] := by simp [mapSet, h]

theorem set_fresh_no_evict {V : Type} (c : Cache V) (k : String) (v : V)
    (hfresh : (c.data.any fun p => p.1 == k) = false)
    (hsize : c.data.length + 1 ≤ c.maxSize) :
    c.set k v = ⟨c.maxSize, c.data ++ [(k, v)], c.queue ++ [k]⟩ := by
  unfold Cache.set
  rw [mapSet_fresh _ _ _ hfresh, evictLoop_of_le _ _ _ (by simpa using hsize)]

theorem foldl_set_fresh {V : Type} (kvs : List (String × V)) :
    ∀ c : Cache V, c.data.length + kvs.length ≤ c.maxSize →
      (c.data.map Prod.fst ++ kvs.map Prod.fst).Nodup →
      kvs.foldl (fun c p => c.set p.1 p.2) c =
        ⟨c.maxSize, c.data ++ kvs, c.queue ++ kvs.map Prod.fst⟩ := by
  induction kvs with
  | nil => intro c _ _; simp
  | cons hd tl ih =>
    intro c hlen hnodup
    have hfresh : (c.data.any fun p => p.1 == hd.1) = false := by
      simp only [List.any_eq_false]
      intro p hp
      simp only [beq_iff_eq]
      intro hpk
      have h2 : hd.1 ∈ c.data.map Prod.fst := List.mem_map.mpr ⟨p, hp, hpk⟩
      rw [List.nodup_append] at hnodup
      exact hnodup.2.2 h2 (by simp)
    simp only [List.foldl_cons]
    rw [set_fresh_no_evict c hd.1 hd.2 hfresh (by simp at hlen; omega)]
    rw [ih ⟨c.maxSize, c.data ++ [hd], c.queue ++ [hd.1]⟩ (by simp at hlen ⊢; omega)
      (by simpa using hnodup)]
    simp

theorem find_in_nodup {V : Type} (l : List (String × V)) (hn : (l.map Prod.fst).Nodup)
    (p : String × V) (hp : p ∈ l) : (l.find? fun q => q.1 == p.1) = some p := by
  induction l with
  | nil => simp at hp
  | cons hd tl ih =>
    rcases List.mem_cons.mp hp with hp | hp
    · simp_all [List.find?]
    · have hne : (hd.1 == p.1) = false := by
        simp only [beq_eq_false_iff_ne, ne_eq]
        intro h
        simp only [List.map_cons, List.nodup_cons] at hn
        exact hn.1 (h ▸ List.mem_map.mpr ⟨p, hp, rfl⟩)
      simp only [List.find?, hne]
      exact ih (by simp_all [List.nodup_cons]) hp

theorem find_not_mem {V : Type} (l : List (String × V)) (k : String)
    (h : k ∉ l.map Prod.fst) : (l.find? fun q => q.1 == k) = none := by
  rw [List.find?_eq_none]
  intro p hp
  simp only [beq_iff_eq]
  intro hpk
  exact h (List.mem_map.mpr ⟨p, hp, hpk⟩)

theorem set_overflow {V : Type} (d1 : String × V) (drest : List (String × V))
    (k : String) (v : V)
    (hnodup : (d1.1 :: (drest.map Prod.fst ++ [k])).Nodup)
    (htruthy : d1.1 ≠ "") :
    Cache.set ⟨drest.length + 1, d1 :: drest, (d1 :: drest).map Prod.fst⟩ k v =
      ⟨drest.length + 1, drest ++ [(k, v)], (drest ++ [(k, v)]).map Prod.fst⟩ := by
  have hd1k : d1.1 ∉ drest.map Prod.fst ++ [k] := (List.nodup_cons.mp hnodup).1
  have htl : (drest.map Prod.fst ++ [k]).Nodup := (List.nodup_cons.mp hnodup).2
  have h1 : d1.1 ∉ drest.map Prod.fst := fun h => hd1k (List.mem_append.mpr (Or.inl h))
  have h2 : ¬d1.1 = k := fun h => hd1k (List.mem_append.mpr (Or.inr (by simp [h])))
  have hfresh : ((d1 :: drest).any fun p => p.1 == k) = false := by
    simp only [List.any_eq_false]
    intro p hp
    simp only [beq_iff_eq]
    intro hpk
    rcases List.mem_cons.mp hp with hp | hp
    · exact h2 (hp ▸ hpk)
    · have hk : k ∈ drest.map Prod.fst := List.mem_map.mpr ⟨p, hp, hpk⟩
      rw [List.nodup_append] at htl
      exact htl.2.2 hk (by simp)
  have hfilter : (((d1 :: drest) ++ [(k, v)]).filter fun p => p.1 != d1.1) =
      drest ++ [(k, v)] := by
    have htail : ((drest ++ [(k, v)]).filter fun p => p.1 != d1.1) = drest ++ [(k, v)] := by
      apply List.filter_eq_self.mpr
      intro p hp
      simp only [bne_iff_ne, ne_eq]
      intro hpk
      rcases List.mem_append.mp hp with hp | hp
      · exact h1 (hpk ▸ List.mem_map.mpr ⟨p, hp, rfl⟩)
      · simp only [List.mem_singleton] at hp
        exact h2 (by rw [← hpk, hp])
    simpa using htail
  unfold Cache.set
  rw [mapSet_fresh _ _ _ hfresh]
  have hqlen : (((d1 :: drest).map Prod.fst) ++ [k]).length = drest.length + 1 + 1 := by simp
  rw [hqlen]
  rw [evictLoop_step _ _ _ _ (by simp)]
  have hq : ((d1 :: drest).map Prod.fst ++ [k]) = d1.1 :: (drest.map Prod.fst ++ [k]) := by
    simp
  rw [hq]
  have honce : evictOnce ((d1 :: drest) ++ [(k, v)]) (d1.1 :: (drest.map Prod.fst ++ [k])) =
      (drest ++ [(k, v)], drest.map Prod.fst ++ [k]) := by
    simp only [evictOnce]
    rw [if_neg (by simpa using htruthy)]
    rw [hfilter]
  rw [honce]
  rw [evictLoop_of_le _ _ _ (by simp)]
  simp


theorem set_overflow_cap0 {V : Type} (k : String) (v : V) (htruthy : k ≠ "") :
    (Cache.empty V 0).set k v = ⟨0, [], []⟩ := by
  unfold Cache.set Cache.empty
  rw [mapSet_fresh _ _ _ (by simp)]
  simp only [List.nil_append, List.length_singleton]
  rw [evictLoop_step _ _ _ _ (by simp)]
  have honce : evictOnce [(k, v)] [k] = ([], []) := by
    simp only [evictOnce]
    rw [if_neg (by simpa using htruthy)]
    simp
  rw [honce, evictLoop_of_le _ _ _ (by simp)]


/-! ## Claim theorems -/

/-- C3: numeric literal matching in the interpreter uses same-value
equality, not `==`: `matchNode v (NumberLiteral n)` matches exactly when
`v` is the number `n` under `Object.is` semantics (which distinguish the
signed zeros), it reports no-match exactly otherwise, and in particular
`matchNode (-0) (NumberLiteral 0)` is a no-match. -/
theorem c3_number_literal_same_value :
    (∀ (v : JSValue) (n : JSNum),
        matchNode v (.numberLiteral n) = .ok (some (.unnamed [])) ↔ v = .num n) ∧
      (∀ (v : JSValue) (n : JSNum),
          matchNode v (.numberLiteral n) = .ok none ↔ v ≠ .num n) ∧
        matchNode (.num .negZero) (.numberLiteral (.fin 0)) = .ok none := by
  refine ⟨fun v n => ?_, fun v n => ?_, by rw [matchNode]; rfl⟩
  · rw [matchNode]
    cases v <;> simp [jsLiteralEq]
  · rw [matchNode]
    cases v <;> simp [jsLiteralEq]

/-- C6: the capture-merging rules of `mergeArgs`: an empty side returns
the other unchanged; two non-empty unnamed lists concatenate in order;
two non-empty named records merge their keys (`Object.assign`); merging
non-empty unnamed with non-empty named throws the mixed-captures error
in either order. -/
theorem c6_merge_args_rules :
    (∀ a b : MatchArgs, b.isEmpty = true → mergeArgs a b = .ok a) ∧
    (∀ a b : MatchArgs, a.isEmpty = true → b.isEmpty = false → mergeArgs a b = .ok b) ∧
    (∀ l1 l2 : List JSValue, l1 ≠ [] → l2 ≠ [] →
        mergeArgs (.unnamed l1) (.unnamed l2) = .ok (.unnamed (l1 ++ l2))) ∧
    (∀ m1 m2 : List (String × JSValue), m1 ≠ [] → m2 ≠ [] →
        mergeArgs (.named m1) (.named m2) = .ok (.named (jsAssign m1 m2))) ∧
    (∀ (l : List JSValue) (m : List (String × JSValue)), l ≠ [] → m ≠ [] →
        mergeArgs (.unnamed l) (.named m) =
            .error " matching error: Cannot mix named and unnamed arguments in a pattern" ∧
          mergeArgs (.named m) (.unnamed l) =
            .error " matching error: Cannot mix named and unnamed arguments in a pattern") := by
  refine ⟨fun a b hb => ?_, fun a b ha hb => ?_, fun l1 l2 h1 h2 => ?_, fun m1 m2 h1 h2 => ?_,
    fun l m h1 h2 => ⟨?_, ?_⟩⟩ <;>
    simp_all [mergeArgs, MatchArgs.isEmpty]

/-- Witness for C6 at concrete inputs. -/
theorem c6_merge_args_rules_witness :
    ((MatchArgs.unnamed []).isEmpty = true ∧
        mergeArgs (.named [("x", .null)]) (.unnamed []) = .ok (.named [("x", .null)])) ∧
      ([JSValue.null] ≠ [] ∧ [("y", JSValue.undef)] ≠ ([] : List (String × JSValue)) ∧
        mergeArgs (.unnamed [.null]) (.named [("y", .undef)]) =
            .error " matching error: Cannot mix named and unnamed arguments in a pattern") :=
  ⟨⟨rfl, c6_merge_args_rules.1 (.named [("x", .null)]) (.unnamed []) rfl⟩,
   ⟨by simp, by simp,
    ((c6_merge_args_rules.2.2.2.2 [JSValue.null] [("y", JSValue.undef)] (by simp)
      (by simp)).1)⟩⟩

/-- C5 counterexample: the claim fails when the first-inserted key is the
empty string (a falsy key, which `evict`'s `if (key)` guard skips): with
capacity 1, inserting the distinct keys `""` then `"a"` evicts `"a"`, so
the first-inserted key still hits and the second misses. -/
theorem c5_counterexample :
    (((Cache.empty ℕ 1).set "" 10).set "a" 20).get "" = some 10 ∧
      (((Cache.empty ℕ 1).set "" 10).set "a" 20).get "a" = none := ⟨rfl, rfl⟩

/-- C5 (amended): for a cache of capacity `n`, inserting `n + 1` distinct
keys whose first is a non-empty (truthy) string evicts exactly the
first-inserted key and no other: the final state holds precisely the
later `n` entries, a `get` of the first key misses and a `get` of every
other key returns its value.  (`get` never mutates the cache in this
model, so access recency cannot influence eviction.) -/
theorem c5_fifo_eviction_truthy_keys (V : Type) (n : ℕ) (first : String × V)
    (rest : List (String × V)) (hlen : rest.length = n)
    (hnodup : (first.1 :: rest.map Prod.fst).Nodup) (htruthy : first.1 ≠ "") :
    (first :: rest).foldl (fun c p => c.set p.1 p.2) (Cache.empty V n) =
        ⟨n, rest, rest.map Prod.fst⟩ ∧
      (⟨n, rest, rest.map Prod.fst⟩ : Cache V).get first.1 = none ∧
      ∀ p ∈ rest, (⟨n, rest, rest.map Prod.fst⟩ : Cache V).get p.1 = some p.2 := by
  have hrestnodup : (rest.map Prod.fst).Nodup := (List.nodup_cons.mp hnodup).2
  have hfirstnotin : first.1 ∉ rest.map Prod.fst := (List.nodup_cons.mp hnodup).1
  refine ⟨?_, by simp [Cache.get, find_not_mem _ _ hfirstnotin],
    fun p hp => by simp [Cache.get, find_in_nodup _ hrestnodup p hp]⟩
  rcases List.eq_nil_or_concat rest with rfl | ⟨mid, last, rfl⟩
  · have hn : n = 0 := by simpa using hlen.symm
    subst hn
    simpa using set_overflow_cap0 first.1 first.2 htruthy
  · simp only [List.concat_eq_append] at hlen hnodup ⊢
    have hn : n = mid.length + 1 := by simp at hlen; omega
    subst hn
    have hnodup2 : (first.1 :: (mid.map Prod.fst ++ [last.1])).Nodup := by
      simpa using hnodup
    have hmidnodup : (first.1 :: mid.map Prod.fst).Nodup := by
      rcases List.nodup_cons.mp hnodup2 with ⟨hnotin, happ⟩
      exact List.nodup_cons.mpr
        ⟨fun h => hnotin (List.mem_append.mpr (Or.inl h)),
         (List.nodup_append.mp happ).1⟩
    have hsplit : (first :: (mid ++ [last])) = (first :: mid) ++ [last] := by simp
    rw [hsplit, List.foldl_append]
    have hfold := foldl_set_fresh (first :: mid) (Cache.empty V (mid.length + 1))
      (by simp [Cache.empty]) (by simpa [Cache.empty] using hmidnodup)
    rw [hfold]
    simp only [Cache.empty, List.nil_append, List.foldl_cons, List.foldl_nil]
    have hover := set_overflow first mid last.1 last.2
      (by simpa using hnodup2) htruthy
    simpa using hover

/-- Witness for C5 (amended) at capacity 1 with keys `"a"`, `"b"`. -/
theorem c5_fifo_eviction_truthy_keys_witness :
    (([(("b" : String), (2 : ℕ))].length = 1 ∧
        (("a" : String) :: [(("b" : String), (2 : ℕ))].map Prod.fst).Nodup ∧
        ("a" : String) ≠ "") ∧
      ([(("a" : String), (1 : ℕ)), ("b", 2)].foldl (fun c p => c.set p.1 p.2)
            (Cache.empty ℕ 1) =
          ⟨1, [("b", 2)], ["b"]⟩ ∧
        (⟨1, [("b", 2)], ["b"]⟩ : Cache ℕ).get "a" = none ∧
        ∀ p ∈ [(("b" : String), (2 : ℕ))],
          (⟨1, [("b", 2)], ["b"]⟩ : Cache ℕ).get p.1 = some p.2)) :=
  ⟨⟨rfl, by decide, by decide⟩, by
    have h := c5_fifo_eviction_truthy_keys ℕ 1 ("a", 1) [("b", 2)] rfl (by decide) (by decide)
    simpa using h⟩

/-- C9: `Cache.set` on a key that is already present (while the cache is
within capacity) appends the key to the FIFO queue without removing its
earlier occurrence and updates the map in place without eviction; and
concretely, with capacity 2, after `set a, set b, set a, set c` the key
`a` — although it was set again just before the overflow — is the one
evicted: `get a` misses while `get b` and `get c` hit. -/
theorem c9_reinsert_keeps_earliest_position :
    (∀ (V : Type) (c : Cache V) (k : String) (v : V),
        (c.data.any fun p => p.1 == k) = true → c.data.length ≤ c.maxSize →
        c.set k v = ⟨c.maxSize, mapSet c.data k v, c.queue ++ [k]⟩ ∧
          (mapSet c.data k v).length = c.data.length) ∧
      ((((((Cache.empty ℕ 2).set "a" 1).set "b" 2).set "a" 3).set "c" 4).get "a" = none ∧
        (((((Cache.empty ℕ 2).set "a" 1).set "b" 2).set "a" 3).set "c" 4).get "b" = some 2 ∧
        (((((Cache.empty ℕ 2).set "a" 1).set "b" 2).set "a" 3).set "c" 4).get "c" = some 4) := by
  refine ⟨fun V c k v hmem hlen => ?_, rfl, rfl, rfl⟩
  have hmaplen : (mapSet c.data k v).length = c.data.length := by
    simp [mapSet, hmem]
  refine ⟨?_, hmaplen⟩
  unfold Cache.set
  rw [evictLoop_of_le _ _ _ (by rw [hmaplen]; exact hlen)]

/-- Witness for C9's general clause at a concrete cache state. -/
theorem c9_reinsert_keeps_earliest_position_witness :
    ((([(("a" : String), (1 : ℕ))].any fun p => p.1 == "a") = true ∧
        ([(("a" : String), (1 : ℕ))].length ≤ 2)) ∧
      ((⟨2, [("a", 1)], ["a"]⟩ : Cache ℕ).set "a" 9 =
          ⟨2, mapSet [("a", 1)] "a" 9, ["a", "a"]⟩ ∧
        (mapSet [(("a" : String), (1 : ℕ))] "a" 9).length = 1)) :=
  ⟨⟨by decide, by decide⟩, by
    have h := c9_reinsert_keeps_earliest_position.1 ℕ ⟨2, [("a", 1)], ["a"]⟩ "a" 9
      (by decide) (by decide)
    simpa using h⟩

/-- C10: constructing a matcher from an empty case set succeeds in both
the point-free interpretive entry point and the JIT compiler, and the
resulting matcher reaches the no-match outcome (`NonExhaustiveError`
carrying the input value) for every value. -/
theorem c10_empty_case_set :
    compileModel [] false = .ok [] ∧ matchPointFreeConstruct [] = .ok [] ∧
      (∀ v, runCompiled [] v = .ok (.noMatch v)) ∧
      ∀ v, interpretCases [] v = .ok (.noMatch v) :=
  ⟨rfl, rfl, fun _ => rfl, fun _ => rfl⟩


end Megamatch
namespace Megamatch

theorem checkList_iff (l : List Node)
    (hp : ∀ n ∈ l, (checkNode n).isOk = !checkReject n) :
    (checkNodeList l).isOk = !checkRejectList l := by
  induction l with
  | nil => rfl
  | cons hd tl ih =>
    have hhd := hp hd (by simp)
    rw [checkNodeList, checkRejectList]
    cases hcheck : checkNode hd with
    | error e =>
      rw [hcheck] at hhd
      simp only [Except.isOk, Except.toBool] at hhd
      simp [hcheck, bind, Except.bind, Except.isOk, Except.toBool, ← hhd]
    | ok u =>
      rw [hcheck] at hhd
      simp only [Except.isOk, Except.toBool] at hhd
      simp only [hcheck, bind, Except.bind, ← hhd, Bool.not_or, Bool.true_and]
      exact ih fun n hn => hp n (by simp [hn])

theorem checkEntries_iff (l : List (String × Node))
    (hp : ∀ e ∈ l, (checkNode e.2).isOk = !checkReject e.2) :
    (checkNodeEntries l).isOk = !checkRejectEntries l := by
  induction l with
  | nil => rfl
  | cons hd tl ih =>
    have hhd := hp hd (by simp)
    rw [checkNodeEntries, checkRejectEntries]
    cases hcheck : checkNode hd.2 with
    | error e =>
      rw [hcheck] at hhd
      simp only [Except.isOk, Except.toBool] at hhd
      simp [hcheck, bind, Except.bind, Except.isOk, Except.toBool, ← hhd]
    | ok u =>
      rw [hcheck] at hhd
      simp only [Except.isOk, Except.toBool] at hhd
      simp only [hcheck, bind, Except.bind, ← hhd, Bool.not_or, Bool.true_and]
      exact ih fun e he => hp e (by simp [he])

theorem checkNode_iff (n : Node) : (checkNode n).isOk = !checkReject n := by
  have H : ∀ (k : ℕ) (n : Node), sizeOf n ≤ k → (checkNode n).isOk = !checkReject n := by
    intro k
    induction k with
    | zero =>
      intro n h
      exfalso
      cases n <;> simp at h
    | succ k ih =>
      intro n h
      cases n with
      | tuple elems =>
        have hmem : ∀ m ∈ elems, (checkNode m).isOk = !checkReject m := by
          intro m hm
          apply ih
          have h1 := List.sizeOf_lt_of_mem hm
          have h2 : sizeOf (Node.tuple elems) = 1 + sizeOf elems := by simp
          omega
        rw [checkNode, checkReject]
        by_cases hsp : (elems.filter Node.isSpreadName).length > 1
        · simp [hsp, Except.isOk, Except.toBool]
        · rw [if_neg hsp, checkList_iff elems hmem]
          simp only [decide_eq_true_eq, hsp, decide_False, Bool.false_or]
      | object entries =>
        have hmem : ∀ e ∈ entries, (checkNode e.2).isOk = !checkReject e.2 := by
          intro e he
          apply ih
          have h0 : sizeOf e.2 < sizeOf e := by cases e <;> simp <;> omega
          have h1 := List.sizeOf_lt_of_mem he
          have h2 : sizeOf (Node.object entries) = 1 + sizeOf entries := by simp
          omega
        rw [checkNode, checkReject]
        by_cases hsp : ((entries.map Prod.snd).filter Node.isSpreadName).length > 1
        · simp [hsp, Except.isOk, Except.toBool]
        · rw [if_neg hsp, checkEntries_iff entries hmem]
          simp only [decide_eq_true_eq, hsp, decide_False, Bool.false_or]
      | orNode variants =>
        have hmem : ∀ m ∈ variants, (checkNode m).isOk = !checkReject m := by
          intro m hm
          apply ih
          have h1 := List.sizeOf_lt_of_mem hm
          have h2 : sizeOf (Node.orNode variants) = 1 + sizeOf variants := by simp
          omega
        rw [checkNode, checkReject]
        by_cases harg : variants.any Node.isArgName = true
        · simp [harg, Except.isOk, Except.toBool]
        · rw [if_neg harg, checkList_iff variants hmem]
          rw [Bool.not_eq_true] at harg
          simp only [harg, Bool.false_or]
      | nullLiteral => rfl
      | undefinedLiteral => rfl
      | booleanLiteral b => rfl
      | bigintLiteral i => rfl
      | numberLiteral m => rfl
      | stringLiteral s => rfl
      | wildcard ub => rfl
      | unnamedArg b => rfl
      | unnamedSpreadArg => rfl
      | namedArg nm b => rfl
      | namedSpreadArg nm => rfl
      | wildcardSpread => rfl
      | sugaredADTRoot t => rfl
  exact H (sizeOf n) n (le_refl _)
theorem parsePattern_eq (s : String) :
    parsePattern s =
      match adtShortcut s with
      | some tag => .ok (some (.sugaredADTRoot tag))
      | none =>
        match mainParseRun s.data with
        | none => .ok none
        | some pr =>
          if pr.2.isEmpty then
            match checkNode pr.1 with
            | .ok _ => .ok (some pr.1)
            | .error e => .error e
          else .ok none := by
  simp only [parsePattern, adtShortcut]
  have hmain : ∀ u : Unit,
      (match mainParseRun s.data with
        | none => (Except.ok none : Except String (Option Node))
        | some (node, rest) =>
          if !rest.isEmpty then .ok none
          else do
            checkNode node
            .ok (some node)) =
      (match mainParseRun s.data with
        | none => .ok none
        | some pr =>
          if pr.2.isEmpty then
            match checkNode pr.1 with
            | .ok _ => .ok (some pr.1)
            | .error e => .error e
          else .ok none) := by
    intro _
    cases hm : mainParseRun s.data with
    | none => rfl
    | some pr =>
      cases pr with
      | mk node rest =>
        by_cases hr : rest.isEmpty
        · simp only [hr, Bool.not_true, Bool.false_eq_true, if_false, if_true]
          cases hcheck : checkNode node <;> simp [hcheck, bind, Except.bind]
        · simp only [Bool.not_eq_true] at hr
          simp [hr]
  cases hadt : adtTagParser s.data with
  | none => simpa using hmain ()
  | some pr =>
    cases pr with
    | mk tag rest =>
      by_cases hvb : tag ∈ validUpperBounds
      · by_cases hws : rest.all isWsChar
        · simp only [hws, hvb, if_true]
          simpa [hvb] using hmain ()
        · simp only [Bool.not_eq_true] at hws
          simpa [hws, hvb] using hmain ()
      · by_cases hws : rest.all isWsChar
        · simp [hws, hvb]
        · simp only [Bool.not_eq_true] at hws
          simpa [hws, hvb] using hmain ()

/-- C2 counterexample: two pattern strings whose parse produces an AST
with a violation the claim says must be rejected, yet whose first
validation throws nothing: `"[_] | null"` contains an Or with an
argument-capturing node inside a variant subtree (the checker looks only
at variant roots), and `"[..., ...] as x"` contains a Tuple with two
spread children hidden under an alias binder (the checker does not
recurse into bound nodes); `parsePattern` returns both ASTs without
error. -/
theorem c2_counterexample :
    parsePattern "[_] | null" =
        .ok (some (.orNode [.tuple [.unnamedArg none], .nullLiteral])) ∧
      claimBad (.orNode [.tuple [.unnamedArg none], .nullLiteral]) = true ∧
      parsePattern "[..., ...] as x" =
          .ok (some (.namedArg "x" (some (.tuple [.wildcardSpread, .wildcardSpread])))) ∧
        claimBad (.namedArg "x" (some (.tuple [.wildcardSpread, .wildcardSpread]))) = true := by
  refine ⟨rfl, ?_, rfl, ?_⟩
  · simp [claimBad, claimBadList, nodeListContainsArg, nodeContainsArg]
  · simp [claimBad, claimBadList, Node.isSpreadName, Node.typeName, strIncludes,
      listContainsSub]

/-- C2 (amended): the post-parse validator throws exactly on violations
reachable from the root through tuple-element, object-entry and
or-variant edges, where the Or rule fires only when a variant's *root*
node is arg-class (`checkReject`); consequently any pattern string whose
main-grammar parse fully succeeds with such a reachable violation makes
`parsePattern` throw at the pattern's first validation (a thrown error,
a channel distinct from the `null` of syntax failures), as the spec's
own example `"'a' | _"`-style pattern `"0 | _"` and a double-spread
tuple demonstrate. -/
theorem c2_validator_rejects_reachable_violations :
    (∀ n : Node, (checkNode n).isOk = !checkReject n) ∧
      (∀ (s : String) (n : Node), adtShortcut s = none → mainParseRun s.data = some (n, []) →
          checkReject n = true → ∃ e, parsePattern s = .error e) ∧
      parsePattern "0 | _" = .error "Cannot use arguments in an “or” pattern" ∧
      parsePattern "[..., ...]" =
        .error "Tuple pattern cannot have more than one spread argument" := by
  refine ⟨checkNode_iff, fun s n hadt hmain hbad => ?_, rfl, rfl⟩
  have hio := checkNode_iff n
  rw [hbad] at hio
  simp only [Bool.not_true] at hio
  cases hcheck : checkNode n with
  | ok u => rw [hcheck] at hio; simp [Except.isOk, Except.toBool] at hio
  | error e =>
    refine ⟨e, ?_⟩
    rw [parsePattern_eq s, hadt, hmain]
    simp [hcheck]

/-- Witness for C2 (amended) at the pattern `"0 | _"`. -/
theorem c2_validator_rejects_reachable_violations_witness :
    (adtShortcut "0 | _" = none ∧
        mainParseRun "0 | _".data =
          some (.orNode [.numberLiteral (.fin 0), .unnamedArg none], []) ∧
        checkReject (.orNode [.numberLiteral (.fin 0), .unnamedArg none]) = true) ∧
      ∃ e, parsePattern "0 | _" = .error e :=
  ⟨⟨rfl, rfl, by simp [checkReject]⟩,
   c2_validator_rejects_reachable_violations.2.1 "0 | _"
     (.orNode [.numberLiteral (.fin 0), .unnamedArg none]) rfl rfl (by simp [checkReject])⟩

/-- C8: `parsePattern` returns `null` — and does not throw — on every
syntactically malformed input and on every input with trailing
unconsumed non-whitespace (first clause); it returns a Node only when
the entire string is consumed, either by the bare-tag shortcut (which
tolerates only trailing whitespace) or by the main grammar with an empty
remainder after the final trailing-whitespace consumer (second clause);
and a thrown error can only arise after a complete successful parse,
from the validator (third clause). -/
theorem c8_parse_null_contract :
    (∀ s : String, adtShortcut s = none →
        (mainParseRun s.data = none ∨ ∃ n r, mainParseRun s.data = some (n, r) ∧ r ≠ []) →
        parsePattern s = .ok none) ∧
      (∀ (s : String) (n : Node), parsePattern s = .ok (some n) →
          (∃ tag, adtShortcut s = some tag ∧ n = .sugaredADTRoot tag) ∨
            mainParseRun s.data = some (n, [])) ∧
      ∀ (s e : String), parsePattern s = .error e →
        ∃ n, mainParseRun s.data = some (n, []) ∧ checkNode n = .error e := by
  refine ⟨fun s hadt hfail => ?_, fun s n h => ?_, fun s e h => ?_⟩
  · rw [parsePattern_eq s, hadt]
    rcases hfail with hfail | ⟨m, r, hfail, hr⟩
    · rw [hfail]
    · rw [hfail]
      simp [List.isEmpty_iff, hr]
  · rw [parsePattern_eq s] at h
    cases hadt : adtShortcut s with
    | some tag =>
      rw [hadt] at h
      simp only [Except.ok.injEq, Option.some.injEq] at h
      exact Or.inl ⟨tag, rfl, h.symm⟩
    | none =>
      rw [hadt] at h
      cases hmain : mainParseRun s.data with
      | none => rw [hmain] at h; simp at h
      | some pr =>
        rw [hmain] at h
        simp only [] at h
        by_cases hr : pr.2.isEmpty
        · rw [if_pos hr] at h
          cases hcheck : checkNode pr.1 with
          | ok u =>
            rw [hcheck] at h
            simp only [Except.ok.injEq, Option.some.injEq] at h
            right
            rw [List.isEmpty_iff] at hr
            cases pr
            simp_all
          | error e => rw [hcheck] at h; simp at h
        · rw [if_neg hr] at h
          simp at h
  · rw [parsePattern_eq s] at h
    cases hadt : adtShortcut s with
    | some tag => rw [hadt] at h; simp at h
    | none =>
      rw [hadt] at h
      cases hmain : mainParseRun s.data with
      | none => rw [hmain] at h; simp at h
      | some pr =>
        rw [hmain] at h
        simp only [] at h
        by_cases hr : pr.2.isEmpty
        · rw [if_pos hr] at h
          cases hcheck : checkNode pr.1 with
          | ok u => rw [hcheck] at h; simp at h
          | error e2 =>
            rw [hcheck] at h
            simp only [Except.error.injEq] at h
            refine ⟨pr.1, ?_, by rw [hcheck, h]⟩
            rw [List.isEmpty_iff] at hr
            cases pr
            simp_all
        · rw [if_neg hr] at h
          simp at h

theorem c8_parse_null_contract_witness :
    (adtShortcut "[1," = none ∧ mainParseRun "[1,".data = none ∧
        parsePattern "[1," = .ok none) ∧
      (parsePattern "42" = .ok (some (.numberLiteral (.fin 42))) ∧
        ((∃ tag, adtShortcut "42" = some tag ∧
            Node.numberLiteral (.fin 42) = .sugaredADTRoot tag) ∨
          mainParseRun "42".data = some (.numberLiteral (.fin 42), []))) ∧
      (parsePattern "0 | _" = .error "Cannot use arguments in an “or” pattern" ∧
        ∃ n, mainParseRun "0 | _".data = some (n, []) ∧
          checkNode n = .error "Cannot use arguments in an “or” pattern") :=
  ⟨⟨rfl, rfl, c8_parse_null_contract.1 "[1," rfl (Or.inl rfl)⟩,
   ⟨rfl, c8_parse_null_contract.2.1 "42" (.numberLiteral (.fin 42)) rfl⟩,
   ⟨rfl, c8_parse_null_contract.2.2 "0 | _" "Cannot use arguments in an “or” pattern" rfl⟩⟩


/-- C4 counterexample: the source filter keeps every key starting with
`_` whose remainder converts to a non-NaN number, so the bare key `_`
(whose remainder `""` converts to `+0`) is captured, while the claim
key set `_<integer>` excludes it: on `\x7b _tag: "Some", "_": 7 \x7d` the
sugared-ADT match captures `[7]` where the claim predicts `[]`. -/
theorem c4_counterexample :
    matchNode (.obj .plain [("_tag", .str "Some"), ("_", .num (.fin 7))])
        (.sugaredADTRoot "Some") =
      .ok (some (.unnamed [JSValue.num (.fin 7)])) ∧
    claimCaptureList (.obj .plain [("_tag", .str "Some"), ("_", .num (.fin 7))]) = [] := by
  constructor
  · rw [matchNode]; rfl
  · rfl

/-- C4 (amended): a sugared-ADT pattern with tag `T` matches exactly the
object- or function-typed values carrying an own `_tag` property equal
to `T`; on match the captures are the values of the own enumerable keys
that start with `_` and whose remainder converts to a non-NaN number
(not only `_<integer>` keys), sorted by that number — so positional
fields are reconstructed regardless of enumeration order — and both the
pattern `Some(_)` (desugared by the parser to an object pattern) and the
bare-tag pattern `Some` capture `[42]` from `\x7b _tag: "Some", _0: 42 \x7d`. -/
theorem c4_adt_guard_and_captures :
    (∀ v tag, (∃ args, matchNode v (.sugaredADTRoot tag) = .ok (some args)) ↔
        (v.isObjectLike ∧ v.hasProp "_tag" ∧ jsLiteralEq (v.getProp "_tag") (.str tag))) ∧
    (∀ v tag args, matchNode v (.sugaredADTRoot tag) = .ok (some args) →
        args = .unnamed (adtCaptureList v)) ∧
    adtCaptureList (.obj .plain [("_tag", .str "Some"), ("_1", .str "b"), ("_0", .str "a")]) =
      [.str "a", .str "b"] ∧
    parsePattern "Some(_)" =
      .ok (some (.object [("_tag", .stringLiteral "Some"), ("_0", .unnamedArg none)])) ∧
    interpretCases [.object [("_tag", .stringLiteral "Some"), ("_0", .unnamedArg none)]]
        (.obj .plain [("_tag", .str "Some"), ("_0", .num (.fin 42))]) =
      .ok (.selected 0 [.num (.fin 42)]) ∧
    parsePattern "Some" = .ok (some (.sugaredADTRoot "Some")) ∧
    interpretCases [.sugaredADTRoot "Some"]
        (.obj .plain [("_tag", .str "Some"), ("_0", .num (.fin 42))]) =
      .ok (.selected 0 [.num (.fin 42)]) := by
  refine ⟨?_, ?_, ?_, ?_, ?_, ?_, ?_⟩
  · intro v tag
    rw [matchNode]
    cases h1 : v.isObjectLike <;> cases h2 : v.hasProp "_tag" <;>
      cases h3 : jsLiteralEq (v.getProp "_tag") (.str tag) <;> simp_all
  · intro v tag args h
    rw [matchNode] at h
    cases h1 : v.isObjectLike <;> cases h2 : v.hasProp "_tag" <;>
      cases h3 : jsLiteralEq (v.getProp "_tag") (.str tag) <;> simp_all
  · rfl
  · rfl
  · simp +decide [interpretCases, interpretCasesFrom, matchNode, matchObjEntries,
      mergeArgs, invokeArgs]
    rfl
  · rfl
  · rw [interpretCases, interpretCasesFrom, matchNode]; rfl

/-- Witness for the quantified parts of C4 at a concrete input. -/
theorem c4_adt_guard_and_captures_witness :
    matchNode (.obj .plain [("_tag", .str "Some"), ("_0", .num (.fin 42))])
        (.sugaredADTRoot "Some") = .ok (some (.unnamed [JSValue.num (.fin 42)])) ∧
    MatchArgs.unnamed [JSValue.num (.fin 42)] =
      .unnamed (adtCaptureList (.obj .plain [("_tag", .str "Some"), ("_0", .num (.fin 42))])) :=
  ⟨by rw [matchNode]; rfl,
   c4_adt_guard_and_captures.2.1 _ "Some" _ (by rw [matchNode]; rfl)⟩

/-- C1: interpreter/compiler divergence.  On the pattern `[_] | null`
and the value `["x"]` the interpreter passes the handler the captured
element `"x"`, while the generated code passes the whole value `["x"]`
(as an array): `compileNode` for an `Or` node destructures only the
predicates of each variant (`const [subPredicates] = compileNode(...)`)
and discards the variant captures, so the compiled branch has an empty
argument list and falls back to passing the match target. -/
theorem c1_or_capture_divergence :
    parsePattern "[_] | null" =
      .ok (some (.orNode [.tuple [.unnamedArg none], .nullLiteral])) ∧
    interpretCases [.orNode [.tuple [.unnamedArg none], .nullLiteral]]
        (.arr [.str "x"]) = .ok (.selected 0 [.str "x"]) ∧
    compileModel ["[_] | null"] false =
      .ok [⟨some [.orGroup [[.isArray [], .lengthEq [] 1], [.eqNull []]]], []⟩] ∧
    runCompiled [⟨some [.orGroup [[.isArray [], .lengthEq [] 1], [.eqNull []]]], []⟩]
        (.arr [.str "x"]) = .ok (.selected 0 [.arr [.str "x"]]) ∧
    [JSValue.str "x"] ≠ [JSValue.arr [.str "x"]] := by
  refine ⟨rfl, ?_, ?_, ?_, by simp⟩
  · simp +decide [interpretCases, interpretCasesFrom, matchNode, matchOrLoop,
      matchTupleLoop, mergeArgs, invokeArgs]
    rfl
  · have h1 : compileModel ["[_] | null"] false =
        compileCasesFrom false [.orNode [.tuple [.unnamedArg none], .nullLiteral]] := rfl
    rw [h1]
    simp +decide [compileCasesFrom, compileNode, compileOrLoop,
      compileTupleLoop, joinPath, argsShapeOk]
    rfl
  · simp +decide [runCompiled, runCompiledFrom, evalPred, evalPredConj,
      evalDisjuncts, evalPath, constructCallArgs]
    rfl

theorem fillUndef_isEmpty (a : MatchArgs) : a.fillUndef.isEmpty = a.isEmpty := by
  cases a with
  | unnamed l => cases l <;> rfl
  | named l => cases l <;> rfl

theorem fillFields_any (l : List (String × JSValue)) (k : String) :
    (fillFields l).any (fun p => p.1 == k) = l.any fun p => p.1 == k := by
  induction l <;> simp_all [fillFields]

theorem fillFields_recordSet (l : List (String × JSValue)) (k : String) (v : JSValue) :
    fillFields (jsRecordSet l k v) = jsRecordSet (fillFields l) k .undef := by
  simp only [jsRecordSet]
  rw [fillFields_any]
  by_cases h : l.any (fun p => p.1 == k) = true
  · rw [if_pos h, if_pos h, fillFields, fillFields, List.map_map, List.map_map]
    refine List.map_congr_left fun p _ => ?_
    by_cases hp : p.1 = k <;> simp [hp]
  · rw [if_neg h, if_neg h]
    simp [fillFields]

theorem fillFields_assign (b a : List (String × JSValue)) :
    fillFields (jsAssign a b) = jsAssign (fillFields a) (fillFields b) := by
  induction b generalizing a with
  | nil => simp [jsAssign, fillFields]
  | cons hd tl ih =>
    have h1 : jsAssign a (hd :: tl) = jsAssign (jsRecordSet a hd.1 hd.2) tl := rfl
    have h2 : jsAssign (fillFields a) (fillFields (hd :: tl)) =
        jsAssign (jsRecordSet (fillFields a) hd.1 .undef) (fillFields tl) := rfl
    rw [h1, h2, ← fillFields_recordSet, ih]

theorem fillFields_isEmpty (l : List (String × JSValue)) :
    (fillFields l).isEmpty = l.isEmpty := by
  cases l <;> rfl

/-- `mergeArgs` commutes with filling both sides with `undefined`. -/
theorem mergeArgs_fillUndef (a b c : MatchArgs) (h : mergeArgs a b = .ok c) :
    mergeArgs a.fillUndef b.fillUndef = .ok c.fillUndef := by
  cases a <;> cases b <;>
    simp only [mergeArgs, MatchArgs.fillUndef, MatchArgs.isEmpty,
      fillFields_isEmpty] at h ⊢ <;>
    split_ifs at h ⊢
  all_goals (try (injection h with h; subst h))
  all_goals simp_all [MatchArgs.fillUndef, fillFields_assign]

/-- An arg-free node extracts no captures, for every fill value. -/
theorem extractList_argFree (l : List Node) (fill : JSValue) (acc : MatchArgs)
    (hp : ∀ m ∈ l, ∀ f, nodeContainsArg m = false → extractAllArgs m f = .ok (.unnamed []))
    (hl : nodeListContainsArg l = false) :
    extractAllArgsList l fill acc = .ok acc := by
  induction l generalizing acc with
  | nil => rw [extractAllArgsList]
  | cons hd tl ih =>
    rw [nodeListContainsArg, Bool.or_eq_false_iff] at hl
    rw [extractAllArgsList, hp hd (by simp) fill hl.1]
    simp only [bind, Except.bind, mergeArgs, MatchArgs.isEmpty, List.isEmpty_nil, if_true]
    exact ih _ (fun m hm f hf => hp m (List.mem_cons_of_mem _ hm) f hf) hl.2

theorem extractEntries_argFree (l : List (String × Node)) (fill : JSValue) (acc : MatchArgs)
    (hp : ∀ e ∈ l, ∀ f, nodeContainsArg e.2 = false → extractAllArgs e.2 f = .ok (.unnamed []))
    (hl : nodeEntriesContainArg l = false) :
    extractAllArgsEntries l fill acc = .ok acc := by
  induction l generalizing acc with
  | nil => rw [extractAllArgsEntries]
  | cons hd tl ih =>
    rw [nodeEntriesContainArg, Bool.or_eq_false_iff] at hl
    rw [extractAllArgsEntries, hp hd (by simp) fill hl.1]
    simp only [bind, Except.bind, mergeArgs, MatchArgs.isEmpty, List.isEmpty_nil, if_true]
    exact ih _ (fun e he f hf => hp e (List.mem_cons_of_mem _ he) f hf) hl.2

theorem extract_argFree (n : Node) (fill : JSValue) (hn : nodeContainsArg n = false) :
    extractAllArgs n fill = .ok (.unnamed []) := by
  have H : ∀ (k : ℕ) (n : Node), sizeOf n ≤ k → ∀ fill,
      nodeContainsArg n = false → extractAllArgs n fill = .ok (.unnamed []) := by
    intro k
    induction k with
    | zero => intro n h; exfalso; cases n <;> simp at h
    | succ k ih =>
      intro n h fill hn
      cases n with
      | tuple elems =>
        rw [nodeContainsArg] at hn
        rw [extractAllArgs]
        exact extractList_argFree elems fill _
          (fun m hm f hf => ih m (by
            have h1 := List.sizeOf_lt_of_mem hm
            have h2 : sizeOf (Node.tuple elems) = 1 + sizeOf elems := by simp
            omega) f hf) hn
      | object entries =>
        rw [nodeContainsArg] at hn
        rw [extractAllArgs]
        exact extractEntries_argFree entries fill _
          (fun e he f hf => ih e.2 (by
            have h0 : sizeOf e.2 < sizeOf e := by cases e <;> simp <;> omega
            have h1 := List.sizeOf_lt_of_mem he
            have h2 : sizeOf (Node.object entries) = 1 + sizeOf entries := by simp
            omega) f hf) hn
      | unnamedArg b => cases b <;> simp [nodeContainsArg] at hn
      | namedArg name b => cases b <;> simp [nodeContainsArg] at hn
      | unnamedSpreadArg => simp [nodeContainsArg] at hn
      | namedSpreadArg name => simp [nodeContainsArg] at hn
      | nullLiteral => simp [extractAllArgs]
      | undefinedLiteral => simp [extractAllArgs]
      | booleanLiteral b => simp [extractAllArgs]
      | bigintLiteral i => simp [extractAllArgs]
      | numberLiteral m => simp [extractAllArgs]
      | stringLiteral s => simp [extractAllArgs]
      | wildcard ub => simp [extractAllArgs]
      | wildcardSpread => simp [extractAllArgs]
      | sugaredADTRoot tag => simp [extractAllArgs]
      | orNode vs => simp [extractAllArgs]
  exact H (sizeOf n) n le_rfl fill hn

/-- Extraction with the `undefined` fill produces all-`undefined`
captures: `fillUndef` fixes its results. -/
theorem extractList_fillUndef (l : List Node) (acc a : MatchArgs)
    (hp : ∀ m ∈ l, ∀ x, extractAllArgs m .undef = .ok x → x.fillUndef = x)
    (hacc : acc.fillUndef = acc)
    (h : extractAllArgsList l .undef acc = .ok a) : a.fillUndef = a := by
  induction l generalizing acc with
  | nil =>
    rw [extractAllArgsList] at h
    injection h with h; rw [← h]; exact hacc
  | cons hd tl ih =>
    rw [extractAllArgsList] at h
    cases hx : extractAllArgs hd .undef with
    | error e => rw [hx] at h; simp [bind, Except.bind] at h
    | ok x =>
      rw [hx] at h
      simp only [bind, Except.bind] at h
      cases hm : mergeArgs acc x with
      | error e => rw [hm] at h; simp at h
      | ok acc2 =>
        rw [hm] at h
        have hfill := mergeArgs_fillUndef acc x acc2 hm
        rw [hacc, hp hd (by simp) x hx, hm] at hfill
        injection hfill with hfill
        exact ih _ (fun m hm2 x2 hx2 => hp m (List.mem_cons_of_mem _ hm2) x2 hx2) hfill.symm h

theorem extractEntries_fillUndef (l : List (String × Node)) (acc a : MatchArgs)
    (hp : ∀ e ∈ l, ∀ x, extractAllArgs e.2 .undef = .ok x → x.fillUndef = x)
    (hacc : acc.fillUndef = acc)
    (h : extractAllArgsEntries l .undef acc = .ok a) : a.fillUndef = a := by
  induction l generalizing acc with
  | nil =>
    rw [extractAllArgsEntries] at h
    injection h with h; rw [← h]; exact hacc
  | cons hd tl ih =>
    rw [extractAllArgsEntries] at h
    cases hx : extractAllArgs hd.2 .undef with
    | error e => rw [hx] at h; simp [bind, Except.bind] at h
    | ok x =>
      rw [hx] at h
      simp only [bind, Except.bind] at h
      cases hm : mergeArgs acc x with
      | error e => rw [hm] at h; simp at h
      | ok acc2 =>
        rw [hm] at h
        have hfill := mergeArgs_fillUndef acc x acc2 hm
        rw [hacc, hp hd (by simp) x hx, hm] at hfill
        injection hfill with hfill
        exact ih _ (fun e he x2 hx2 => hp e (List.mem_cons_of_mem _ he) x2 hx2) hfill.symm h

theorem extract_fillUndef (n : Node) (a : MatchArgs)
    (h : extractAllArgs n .undef = .ok a) : a.fillUndef = a := by
  have H : ∀ (k : ℕ) (n : Node), sizeOf n ≤ k → ∀ a,
      extractAllArgs n .undef = .ok a → a.fillUndef = a := by
    intro k
    induction k with
    | zero => intro n h; exfalso; cases n <;> simp at h
    | succ k ih =>
      intro n hsz a h
      cases n with
      | unnamedArg b =>
        cases b with
        | none =>
          rw [extractAllArgs] at h
          injection h with h
          rw [← h]; rfl
        | some bn =>
          rw [extractAllArgs] at h
          cases hx : extractAllArgs bn .undef with
          | error e => rw [hx] at h; simp [bind, Except.bind] at h
          | ok x =>
            rw [hx] at h
            simp only [bind, Except.bind] at h
            have hxf : x.fillUndef = x := ih bn (by simp at hsz; omega) x hx
            have hfill := mergeArgs_fillUndef x (.unnamed [.undef]) a h
            rw [hxf] at hfill
            have : MatchArgs.fillUndef (.unnamed [.undef]) = .unnamed [.undef] := rfl
            rw [this, h] at hfill
            injection hfill with hfill
            exact hfill.symm
      | namedArg name b =>
        cases b with
        | none =>
          rw [extractAllArgs] at h
          injection h with h
          rw [← h]; rfl
        | some bn =>
          rw [extractAllArgs] at h
          cases hx : extractAllArgs bn .undef with
          | error e => rw [hx] at h; simp [bind, Except.bind] at h
          | ok x =>
            rw [hx] at h
            simp only [bind, Except.bind] at h
            have hxf : x.fillUndef = x := ih bn (by simp at hsz; omega) x hx
            have hfill := mergeArgs_fillUndef x (.named [(name, .undef)]) a h
            rw [hxf] at hfill
            have : MatchArgs.fillUndef (.named [(name, .undef)]) = .named [(name, .undef)] := rfl
            rw [this, h] at hfill
            injection hfill with hfill
            exact hfill.symm
      | tuple elems =>
        rw [extractAllArgs] at h
        exact extractList_fillUndef elems _ a
          (fun m hm x hx => ih m (by
            have h1 := List.sizeOf_lt_of_mem hm
            have h2 : sizeOf (Node.tuple elems) = 1 + sizeOf elems := by simp
            omega) x hx) rfl h
      | object entries =>
        rw [extractAllArgs] at h
        exact extractEntries_fillUndef entries _ a
          (fun e he x hx => ih e.2 (by
            have h0 : sizeOf e.2 < sizeOf e := by cases e <;> simp <;> omega
            have h1 := List.sizeOf_lt_of_mem he
            have h2 : sizeOf (Node.object entries) = 1 + sizeOf entries := by simp
            omega) x hx) rfl h
      | unnamedSpreadArg => rw [extractAllArgs] at h; injection h with h; rw [← h]; rfl
      | namedSpreadArg name => rw [extractAllArgs] at h; injection h with h; rw [← h]; rfl
      | nullLiteral => simp only [extractAllArgs] at h; injection h with h; rw [← h]; rfl
      | undefinedLiteral => simp only [extractAllArgs] at h; injection h with h; rw [← h]; rfl
      | booleanLiteral b => simp only [extractAllArgs] at h; injection h with h; rw [← h]; rfl
      | bigintLiteral i => simp only [extractAllArgs] at h; injection h with h; rw [← h]; rfl
      | numberLiteral m => simp only [extractAllArgs] at h; injection h with h; rw [← h]; rfl
      | stringLiteral s => simp only [extractAllArgs] at h; injection h with h; rw [← h]; rfl
      | wildcard ub => simp only [extractAllArgs] at h; injection h with h; rw [← h]; rfl
      | wildcardSpread => simp only [extractAllArgs] at h; injection h with h; rw [← h]; rfl
      | sugaredADTRoot tag => simp only [extractAllArgs] at h; injection h with h; rw [← h]; rfl
      | orNode vs => simp only [extractAllArgs] at h; injection h with h; rw [← h]; rfl
  exact H (sizeOf n) n le_rfl a h

/-- Unfolding equation of `matchTupleLoop` at a non-spread head. -/
theorem matchTupleLoop_cons_other (vl el i : ℕ) (rest : List JSValue) (acc : MatchArgs)
    (n : Node) (tl : List Node) (hn1 : n ≠ .wildcardSpread)
    (hn2 : n ≠ .unnamedSpreadArg) (hn3 : ∀ name, n ≠ .namedSpreadArg name) :
    matchTupleLoop vl el i rest acc (n :: tl) = (do
      match ← matchNode (rest.headD .undef) n with
      | none => .ok none
      | some r => do
        let acc2 ← mergeArgs acc r
        matchTupleLoop vl el (i + 1) (rest.drop 1) acc2 tl) := by
  cases n <;> try (rw [matchTupleLoop] <;> simp)
  · exact absurd rfl hn2
  · exact absurd rfl (hn3 _)
  · exact absurd rfl hn1

/-- Unfolding equation of `matchObjEntries` at a non-spread entry. -/
theorem matchObjEntries_cons_other (value : JSValue) (allE : List (String × Node))
    (acc : MatchArgs) (key : String) (n : Node) (tl : List (String × Node))
    (hn2 : n ≠ .unnamedSpreadArg) (hn3 : ∀ name, n ≠ .namedSpreadArg name) :
    matchObjEntries value allE acc ((key, n) :: tl) =
      (if strEndsWith key "?" then do
        if !value.hasProp (strDropRight key 1) then do
          let acc2 ← mergeArgs acc (← extractAllArgs n .undef)
          matchObjEntries value allE acc2 tl
        else
          match ← matchNode (value.getProp (strDropRight key 1)) n with
          | none => .ok none
          | some r => do
            let acc2 ← mergeArgs acc r
            matchObjEntries value allE acc2 tl
      else if !value.hasProp key then .ok none
      else do
        match ← matchNode (value.getProp key) n with
        | none => .ok none
        | some r => do
          let acc2 ← mergeArgs acc r
          matchObjEntries value allE acc2 tl) := by
  cases n <;> try (rw [matchObjEntries] <;> simp)
  · exact absurd rfl hn2
  · exact absurd rfl (hn3 _)

/-- The per-element loop of a Tuple match adds no captures when every
element is arg-free. -/
theorem matchTuple_argFree (elems : List Node)
    (hp : ∀ m ∈ elems, ∀ v a, nodeContainsArg m = false → shapeStable m = true →
      matchNode v m = .ok (some a) → a = .unnamed [])
    (hfree : nodeListContainsArg elems = false) (hst : shapeStableList elems = true) :
    ∀ vl el i rest acc args, matchTupleLoop vl el i rest acc elems = .ok (some args) →
      args = acc := by
  induction elems with
  | nil =>
    intro vl el i rest acc args h
    rw [matchTupleLoop] at h
    injection h with h
    injection h with h
    exact h.symm
  | cons hd tl ih =>
    intro vl el i rest acc args h
    rw [nodeListContainsArg, Bool.or_eq_false_iff] at hfree
    rw [shapeStableList, Bool.and_eq_true] at hst
    by_cases hsp : hd.isSpreadName = true
    · cases hd
      any_goals (simp [nodeContainsArg] at hfree; done)
      any_goals
        (rw [matchTupleLoop] at h
         exact ih (fun m hm => hp m (List.mem_cons_of_mem _ hm)) hfree.2 hst.2 _ _ _ _ _ _ h)
      all_goals simp at hsp
    · have hn : hd.isSpreadName = false := by revert hsp; cases hd.isSpreadName <;> simp
      have hn1 : hd ≠ .wildcardSpread := by rintro rfl; simp at hn
      have hn2 : hd ≠ .unnamedSpreadArg := by rintro rfl; simp at hn
      have hn3 : ∀ name, hd ≠ .namedSpreadArg name := by rintro name rfl; simp at hn
      rw [matchTupleLoop_cons_other vl el i rest acc hd tl hn1 hn2 hn3] at h
      cases hmn : matchNode (rest.headD .undef) hd with
      | error e => rw [hmn] at h; simp [bind, Except.bind] at h
      | ok o =>
        rw [hmn] at h
        cases o with
        | none => simp [bind, Except.bind] at h
        | some r =>
          have hr : r = .unnamed [] := hp _ (List.mem_cons_self _ _) _ _ hfree.1 hst.1 hmn
          subst hr
          exact ih (fun m hm => hp m (List.mem_cons_of_mem _ hm)) hfree.2 hst.2 _ _ _ _ _ _ h

/-- An Or node over arg-free variants yields an empty capture set. -/
theorem matchOr_argFree (vs : List Node)
    (hp : ∀ m ∈ vs, ∀ v a, nodeContainsArg m = false → shapeStable m = true →
      matchNode v m = .ok (some a) → a = .unnamed [])
    (hfree : nodeListContainsArg vs = false) (hst : shapeStableList vs = true) :
    ∀ v args, matchOrLoop v vs = .ok (some args) → args = .unnamed [] := by
  induction vs with
  | nil =>
    intro v args h
    rw [matchOrLoop] at h
    simp at h
  | cons hd tl ih =>
    intro v args h
    rw [nodeListContainsArg, Bool.or_eq_false_iff] at hfree
    rw [shapeStableList, Bool.and_eq_true] at hst
    rw [matchOrLoop] at h
    cases hmn : matchNode v hd with
    | error e => rw [hmn] at h; simp [bind, Except.bind] at h
    | ok o =>
      rw [hmn] at h
      cases o with
      | some r =>
        have hr := hp hd (List.mem_cons_self _ _) v r hfree.1 hst.1 hmn
        injection (show (Except.ok (some r) : Except String (Option MatchArgs)) =
          .ok (some args) from h) with h2
        injection h2 with h3
        rw [← h3]
        exact hr
      | none => exact ih (fun m hm => hp m (List.mem_cons_of_mem _ hm)) hfree.2 hst.2 v args h

/-- The per-entry loop of an Object match adds no captures when every
entry value is arg-free. -/
theorem matchObj_argFree (entries : List (String × Node))
    (hp : ∀ e ∈ entries, ∀ v a, nodeContainsArg e.2 = false → shapeStable e.2 = true →
      matchNode v e.2 = .ok (some a) → a = .unnamed [])
    (hfree : nodeEntriesContainArg entries = false) (hst : shapeStableEntries entries = true) :
    ∀ value allEntries acc args,
      matchObjEntries value allEntries acc entries = .ok (some args) → args = acc := by
  induction entries with
  | nil =>
    intro value allE acc args h
    rw [matchObjEntries] at h
    injection h with h
    injection h with h
    exact h.symm
  | cons e tl ih =>
    obtain ⟨key, nd⟩ := e
    intro value allE acc args h
    rw [nodeEntriesContainArg, Bool.or_eq_false_iff] at hfree
    rw [shapeStableEntries, Bool.and_eq_true] at hst
    by_cases hwc : nd = Node.wildcardSpread ∨ nd = .unnamedSpreadArg ∨
        ∃ name, nd = .namedSpreadArg name
    · rcases hwc with hwc | hwc | ⟨name, hwc⟩
      · subst hwc
        rw [matchObjEntries_cons_other value allE acc key _ tl (by simp) (by simp)] at h
        rw [extract_argFree _ .undef hfree.1] at h
        split at h
        · split at h
          · exact ih (fun e2 he2 => hp e2 (List.mem_cons_of_mem _ he2)) hfree.2 hst.2 _ _ _ _ h
          · rw [show matchNode (value.getProp (strDropRight key 1)) Node.wildcardSpread =
                .error ("Cannot handle pattern type: " ++ Node.wildcardSpread.typeName)
                from by simp [matchNode, Node.typeName]] at h
            simp [bind, Except.bind] at h
        · split at h
          · simp at h
          · rw [show matchNode (value.getProp key) Node.wildcardSpread =
                .error ("Cannot handle pattern type: " ++ Node.wildcardSpread.typeName)
                from by simp [matchNode, Node.typeName]] at h
            simp [bind, Except.bind] at h
      · subst hwc; simp [nodeContainsArg] at hfree
      · subst hwc; simp [nodeContainsArg] at hfree
    · push_neg at hwc
      rw [matchObjEntries_cons_other value allE acc key nd tl hwc.2.1
        (fun name => hwc.2.2 name)] at h
      rw [extract_argFree nd .undef hfree.1] at h
      split at h
      · split at h
        · exact ih (fun e2 he2 => hp e2 (List.mem_cons_of_mem _ he2)) hfree.2 hst.2 _ _ _ _ h
        · cases hmn : matchNode (value.getProp (strDropRight key 1)) nd with
          | error e => rw [hmn] at h; simp [bind, Except.bind] at h
          | ok o =>
            rw [hmn] at h
            cases o with
            | none => simp [bind, Except.bind] at h
            | some r =>
              have hr : r = .unnamed [] :=
                hp _ (List.mem_cons_self _ _) _ _ hfree.1 hst.1 hmn
              subst hr
              exact ih (fun e2 he2 => hp e2 (List.mem_cons_of_mem _ he2)) hfree.2 hst.2
                _ _ _ _ h
      · split at h
        · simp at h
        · cases hmn : matchNode (value.getProp key) nd with
          | error e => rw [hmn] at h; simp [bind, Except.bind] at h
          | ok o =>
            rw [hmn] at h
            cases o with
            | none => simp [bind, Except.bind] at h
            | some r =>
              have hr : r = .unnamed [] :=
                hp _ (List.mem_cons_self _ _) _ _ hfree.1 hst.1 hmn
              subst hr
              exact ih (fun e2 he2 => hp e2 (List.mem_cons_of_mem _ he2)) hfree.2 hst.2
                _ _ _ _ h

/-- An arg-free, shape-stable node matches with an empty capture set. -/
theorem matchNode_argFree (n : Node) (hfree : nodeContainsArg n = false)
    (hst : shapeStable n = true) (v : JSValue) (args : MatchArgs)
    (h : matchNode v n = .ok (some args)) : args = .unnamed [] := by
  have H : ∀ (k : ℕ) (n : Node), sizeOf n ≤ k → nodeContainsArg n = false →
      shapeStable n = true → ∀ v args, matchNode v n = .ok (some args) →
      args = .unnamed [] := by
    intro k
    induction k with
    | zero => intro n h; exfalso; cases n <;> simp at h
    | succ k ih =>
      intro n hsz hfree hst v args h
      cases n with
      | nullLiteral => cases v <;> simp_all [matchNode]
      | undefinedLiteral => cases v <;> simp_all [matchNode]
      | booleanLiteral b => rw [matchNode] at h; split at h <;> simp_all
      | bigintLiteral i => rw [matchNode] at h; split at h <;> simp_all
      | numberLiteral m => rw [matchNode] at h; split at h <;> simp_all
      | stringLiteral s => rw [matchNode] at h; split at h <;> simp_all
      | wildcard ub => rw [matchNode] at h; split at h <;> simp_all
      | unnamedArg b => cases b <;> simp [nodeContainsArg] at hfree
      | namedArg name b => cases b <;> simp [nodeContainsArg] at hfree
      | unnamedSpreadArg => simp [nodeContainsArg] at hfree
      | namedSpreadArg name => simp [nodeContainsArg] at hfree
      | wildcardSpread => simp [matchNode] at h
      | sugaredADTRoot tag => simp [shapeStable] at hst
      | tuple elems =>
        rw [nodeContainsArg] at hfree
        rw [shapeStable] at hst
        cases v
        case arr velems =>
          rw [matchNode] at h
          split at h
          any_goals (simp at h; done)
          try (split at h; any_goals (simp at h; done))
          exact matchTuple_argFree elems
            (fun m hm v2 a2 hf hs hmm => ih m (by
              have h1 := List.sizeOf_lt_of_mem hm
              have h2 : sizeOf (Node.tuple elems) = 1 + sizeOf elems := by simp
              omega) hf hs v2 a2 hmm) hfree hst _ _ _ _ _ _ h
        all_goals simp [matchNode] at h
      | object entries =>
        rw [nodeContainsArg] at hfree
        rw [shapeStable] at hst
        rw [matchNode] at h
        split at h
        · simp at h
        · exact matchObj_argFree entries
            (fun e he v2 a2 hf hs hmm => ih e.2 (by
              have h0 : sizeOf e.2 < sizeOf e := by cases e <;> simp <;> omega
              have h1 := List.sizeOf_lt_of_mem he
              have h2 : sizeOf (Node.object entries) = 1 + sizeOf entries := by simp
              omega) hf hs v2 a2 hmm) hfree hst _ _ _ _ h
      | orNode vs =>
        rw [nodeContainsArg] at hfree
        rw [shapeStable, Bool.and_eq_true] at hst
        rw [matchNode] at h
        exact matchOr_argFree vs
          (fun m hm v2 a2 hf hs hmm => ih m (by
            have h1 := List.sizeOf_lt_of_mem hm
            have h2 : sizeOf (Node.orNode vs) = 1 + sizeOf vs := by simp
            omega) hf hs v2 a2 hmm) hfree hst.2 v args h
  exact H (sizeOf n) n le_rfl hfree hst v args h

/-- Tuple-loop mirror: the captures the loop accumulates are matched,
position for position, by `extractAllArgsList` with the `undefined`
fill. -/
theorem mirrorTuple (elems : List Node)
    (hp : ∀ m ∈ elems, ∀ v a, shapeStable m = true → matchNode v m = .ok (some a) →
      extractAllArgs m .undef = .ok a.fillUndef)
    (hst : shapeStableList elems = true) :
    ∀ vl el i rest acc args, matchTupleLoop vl el i rest acc elems = .ok (some args) →
      extractAllArgsList elems .undef acc.fillUndef = .ok args.fillUndef := by
  induction elems with
  | nil =>
    intro vl el i rest acc args h
    rw [matchTupleLoop] at h
    injection h with h
    injection h with h
    rw [extractAllArgsList, h]
  | cons hd tl ih =>
    intro vl el i rest acc args h
    rw [shapeStableList, Bool.and_eq_true] at hst
    rw [extractAllArgsList]
    by_cases hsp : hd.isSpreadName = true
    · cases hd
      any_goals (simp at hsp; done)
      ·
        rw [matchTupleLoop] at h
        simp only [bind, Except.bind] at h
        cases hm : mergeArgs acc
            (MatchArgs.unnamed [.arr (jsSlice rest 0 ((vl : ℤ) - ((el : ℤ) - (i : ℤ))))]) with
        | error e => rw [hm] at h; simp at h
        | ok acc2 =>
          rw [hm] at h
          have hfill := mergeArgs_fillUndef _ _ _ hm
          rw [show extractAllArgs Node.unnamedSpreadArg JSValue.undef =
            .ok (.unnamed [JSValue.undef]) from by rw [extractAllArgs]]
          simp only [bind, Except.bind]
          rw [show MatchArgs.fillUndef
            (MatchArgs.unnamed [.arr (jsSlice rest 0 ((vl : ℤ) - ((el : ℤ) - (i : ℤ))))]) =
            .unnamed [JSValue.undef] from rfl] at hfill
          rw [hfill]
          exact ih (fun m hm2 => hp m (List.mem_cons_of_mem _ hm2)) hst.2 _ _ _ _ _ _ h
      next name =>
        rw [matchTupleLoop] at h
        simp only [bind, Except.bind] at h
        cases hm : mergeArgs acc
            (MatchArgs.named [(name, .arr (jsSlice rest 0 ((vl : ℤ) - ((el : ℤ) - (i : ℤ)))))]) with
        | error e => rw [hm] at h; simp at h
        | ok acc2 =>
          rw [hm] at h
          have hfill := mergeArgs_fillUndef _ _ _ hm
          rw [show extractAllArgs (Node.namedSpreadArg name) JSValue.undef =
            .ok (.named [(name, JSValue.undef)]) from by rw [extractAllArgs]]
          simp only [bind, Except.bind]
          rw [show MatchArgs.fillUndef
            (MatchArgs.named [(name, .arr (jsSlice rest 0 ((vl : ℤ) - ((el : ℤ) - (i : ℤ)))))]) =
            .named [(name, JSValue.undef)] from rfl] at hfill
          rw [hfill]
          exact ih (fun m hm2 => hp m (List.mem_cons_of_mem _ hm2)) hst.2 _ _ _ _ _ _ h
      next =>
        rw [matchTupleLoop] at h
        rw [extract_argFree Node.wildcardSpread .undef (by simp [nodeContainsArg])]
        simp only [bind, Except.bind]
        rw [show mergeArgs acc.fillUndef (.unnamed []) = .ok acc.fillUndef from rfl]
        exact ih (fun m hm2 => hp m (List.mem_cons_of_mem _ hm2)) hst.2 _ _ _ _ _ _ h
    · have hn : hd.isSpreadName = false := by revert hsp; cases hd.isSpreadName <;> simp
      have hn1 : hd ≠ .wildcardSpread := by rintro rfl; simp at hn
      have hn2 : hd ≠ .unnamedSpreadArg := by rintro rfl; simp at hn
      have hn3 : ∀ name, hd ≠ .namedSpreadArg name := by rintro name rfl; simp at hn
      rw [matchTupleLoop_cons_other vl el i rest acc hd tl hn1 hn2 hn3] at h
      cases hmn : matchNode (rest.headD .undef) hd with
      | error e => rw [hmn] at h; simp [bind, Except.bind] at h
      | ok o =>
        rw [hmn] at h
        cases o with
        | none => simp [bind, Except.bind] at h
        | some r =>
          simp only [bind, Except.bind] at h
          cases hm : mergeArgs acc r with
          | error e => rw [hm] at h; simp at h
          | ok acc2 =>
            rw [hm] at h
            have hext := hp hd (List.mem_cons_self _ _) _ _ hst.1 hmn
            rw [hext]
            simp only [bind, Except.bind]
            rw [mergeArgs_fillUndef _ _ _ hm]
            exact ih (fun m hm2 => hp m (List.mem_cons_of_mem _ hm2)) hst.2 _ _ _ _ _ _ h

/-- Object-entry-loop mirror. -/
theorem mirrorEntries (entries : List (String × Node))
    (hp : ∀ e ∈ entries, ∀ v a, shapeStable e.2 = true → matchNode v e.2 = .ok (some a) →
      extractAllArgs e.2 .undef = .ok a.fillUndef)
    (hst : shapeStableEntries entries = true) :
    ∀ value allE acc args, matchObjEntries value allE acc entries = .ok (some args) →
      extractAllArgsEntries entries .undef acc.fillUndef = .ok args.fillUndef := by
  induction entries with
  | nil =>
    intro value allE acc args h
    rw [matchObjEntries] at h
    injection h with h
    injection h with h
    rw [extractAllArgsEntries, h]
  | cons e tl ih =>
    obtain ⟨key, nd⟩ := e
    intro value allE acc args h
    rw [shapeStableEntries, Bool.and_eq_true] at hst
    rw [extractAllArgsEntries]
    dsimp only
    by_cases hwc : nd = .unnamedSpreadArg ∨ ∃ name, nd = .namedSpreadArg name
    · rcases hwc with hwc | ⟨name, hwc⟩
      · subst hwc
        rw [matchObjEntries] at h
        simp only [bind, Except.bind] at h
        cases hm : mergeArgs acc (MatchArgs.unnamed [.obj .plain
            (value.ownEnumEntries.filter fun p => !(allE.any fun e2 =>
              !e2.2.isSpreadName &&
                (if strEndsWith e2.1 "?" then strDropRight e2.1 1 else e2.1) == p.1))]) with
        | error er => rw [hm] at h; simp at h
        | ok acc2 =>
          rw [hm] at h
          have hfill := mergeArgs_fillUndef _ _ _ hm
          rw [show extractAllArgs Node.unnamedSpreadArg JSValue.undef =
            .ok (.unnamed [JSValue.undef]) from by rw [extractAllArgs]]
          simp only [bind, Except.bind]
          rw [show MatchArgs.fillUndef (MatchArgs.unnamed [.obj .plain
            (value.ownEnumEntries.filter fun p => !(allE.any fun e2 =>
              !e2.2.isSpreadName &&
                (if strEndsWith e2.1 "?" then strDropRight e2.1 1 else e2.1) == p.1))]) =
            .unnamed [JSValue.undef] from rfl] at hfill
          rw [hfill]
          exact ih (fun e2 he2 => hp e2 (List.mem_cons_of_mem _ he2)) hst.2 _ _ _ _ h
      · subst hwc
        rw [matchObjEntries] at h
        simp only [bind, Except.bind] at h
        cases hm : mergeArgs acc (MatchArgs.named [(name, .obj .plain
            (value.ownEnumEntries.filter fun p => !(allE.any fun e2 =>
              !e2.2.isSpreadName &&
                (if strEndsWith e2.1 "?" then strDropRight e2.1 1 else e2.1) == p.1)))]) with
        | error er => rw [hm] at h; simp at h
        | ok acc2 =>
          rw [hm] at h
          have hfill := mergeArgs_fillUndef _ _ _ hm
          rw [show extractAllArgs (Node.namedSpreadArg name) JSValue.undef =
            .ok (.named [(name, JSValue.undef)]) from by rw [extractAllArgs]]
          simp only [bind, Except.bind]
          rw [show MatchArgs.fillUndef (MatchArgs.named [(name, .obj .plain
            (value.ownEnumEntries.filter fun p => !(allE.any fun e2 =>
              !e2.2.isSpreadName &&
                (if strEndsWith e2.1 "?" then strDropRight e2.1 1 else e2.1) == p.1)))]) =
            .named [(name, JSValue.undef)] from rfl] at hfill
          rw [hfill]
          exact ih (fun e2 he2 => hp e2 (List.mem_cons_of_mem _ he2)) hst.2 _ _ _ _ h
    · push_neg at hwc
      rw [matchObjEntries_cons_other value allE acc key nd tl hwc.1
        (fun name => hwc.2 name)] at h
      split at h
      · split at h
        · -- optional key absent: the match itself merges the undef-filled extraction
          simp only [bind, Except.bind] at h
          cases hx : extractAllArgs nd .undef with
          | error er => rw [hx] at h; simp at h
          | ok x =>
            rw [hx] at h
            simp only [] at h
            cases hm : mergeArgs acc x with
            | error er => rw [hm] at h; simp at h
            | ok acc2 =>
              rw [hm] at h
              simp only [bind, Except.bind]
              have hfill := mergeArgs_fillUndef _ _ _ hm
              rw [extract_fillUndef nd x hx] at hfill
              rw [hfill]
              exact ih (fun e2 he2 => hp e2 (List.mem_cons_of_mem _ he2)) hst.2 _ _ _ _ h
        · cases hmn : matchNode (value.getProp (strDropRight key 1)) nd with
          | error er => rw [hmn] at h; simp [bind, Except.bind] at h
          | ok o =>
            rw [hmn] at h
            cases o with
            | none => simp [bind, Except.bind] at h
            | some r =>
              simp only [bind, Except.bind] at h
              cases hm : mergeArgs acc r with
              | error er => rw [hm] at h; simp at h
              | ok acc2 =>
                rw [hm] at h
                rw [hp _ (List.mem_cons_self _ _) _ _ hst.1 hmn]
                simp only [bind, Except.bind]
                rw [mergeArgs_fillUndef _ _ _ hm]
                exact ih (fun e2 he2 => hp e2 (List.mem_cons_of_mem _ he2)) hst.2 _ _ _ _ h
      · split at h
        · simp at h
        · cases hmn : matchNode (value.getProp key) nd with
          | error er => rw [hmn] at h; simp [bind, Except.bind] at h
          | ok o =>
            rw [hmn] at h
            cases o with
            | none => simp [bind, Except.bind] at h
            | some r =>
              simp only [bind, Except.bind] at h
              cases hm : mergeArgs acc r with
              | error er => rw [hm] at h; simp at h
              | ok acc2 =>
                rw [hm] at h
                rw [hp _ (List.mem_cons_self _ _) _ _ hst.1 hmn]
                simp only [bind, Except.bind]
                rw [mergeArgs_fillUndef _ _ _ hm]
                exact ih (fun e2 he2 => hp e2 (List.mem_cons_of_mem _ he2)) hst.2 _ _ _ _ h

/-- A shape-stable node's undefined-filled extraction mirrors, capture
for capture, what a successful match of the node would have produced:
same arity and names, every value replaced by `undefined`. -/
theorem matchNode_extract_mirror (n : Node) (hst : shapeStable n = true)
    (v : JSValue) (args : MatchArgs) (h : matchNode v n = .ok (some args)) :
    extractAllArgs n .undef = .ok args.fillUndef := by
  have H : ∀ (k : ℕ) (n : Node), sizeOf n ≤ k → shapeStable n = true →
      ∀ v args, matchNode v n = .ok (some args) →
      extractAllArgs n .undef = .ok args.fillUndef := by
    intro k
    induction k with
    | zero => intro n h; exfalso; cases n <;> simp at h
    | succ k ih =>
      intro n hsz hst v args h
      cases n with
      | nullLiteral =>
        cases v <;> simp [matchNode] at h
        rw [extract_argFree _ .undef (by simp [nodeContainsArg])]
        first | rw [← h] | rw [h]
        rfl
      | undefinedLiteral =>
        cases v <;> simp [matchNode] at h
        rw [extract_argFree _ .undef (by simp [nodeContainsArg])]
        first | rw [← h] | rw [h]
        rfl
      | booleanLiteral b =>
        rw [matchNode] at h
        split at h
        · injection h with h
          injection h with h
          rw [extract_argFree _ .undef (by simp [nodeContainsArg]), ← h]
          rfl
        · simp at h
      | bigintLiteral i =>
        rw [matchNode] at h
        split at h
        · injection h with h
          injection h with h
          rw [extract_argFree _ .undef (by simp [nodeContainsArg]), ← h]
          rfl
        · simp at h
      | numberLiteral m =>
        rw [matchNode] at h
        split at h
        · injection h with h
          injection h with h
          rw [extract_argFree _ .undef (by simp [nodeContainsArg]), ← h]
          rfl
        · simp at h
      | stringLiteral str =>
        rw [matchNode] at h
        split at h
        · injection h with h
          injection h with h
          rw [extract_argFree _ .undef (by simp [nodeContainsArg]), ← h]
          rfl
        · simp at h
      | wildcard ub =>
        rw [matchNode] at h
        split at h
        · injection h with h
          injection h with h
          rw [extract_argFree _ .undef (by simp [nodeContainsArg]), ← h]
          rfl
        · simp at h
      | unnamedArg b =>
        cases b with
        | none =>
          rw [matchNode] at h
          injection h with h
          injection h with h
          rw [show extractAllArgs (Node.unnamedArg none) JSValue.undef =
            .ok (.unnamed [JSValue.undef]) from by rw [extractAllArgs], ← h]
          rfl
        | some bn =>
          rw [shapeStable] at hst
          rw [matchNode] at h
          cases hmb : matchNode v bn with
          | error e => rw [hmb] at h; simp [bind, Except.bind] at h
          | ok o =>
            rw [hmb] at h
            cases o with
            | none => simp [bind, Except.bind] at h
            | some r =>
              simp only [bind, Except.bind] at h
              cases hm : mergeArgs r (.unnamed [v]) with
              | error e => rw [hm] at h; simp at h
              | ok args2 =>
                rw [hm] at h
                injection (show (Except.ok (some args2) : Except String (Option MatchArgs)) =
                  .ok (some args) from h) with h2
                injection h2 with h3
                rw [extractAllArgs]
                rw [ih bn (by simp at hsz; omega) hst v r hmb]
                simp only [bind, Except.bind]
                have hfill := mergeArgs_fillUndef _ _ _ hm
                rw [show MatchArgs.fillUndef (MatchArgs.unnamed [v]) =
                  .unnamed [JSValue.undef] from rfl] at hfill
                rw [hfill, h3]
      | namedArg name b =>
        cases b with
        | none =>
          rw [matchNode] at h
          injection h with h
          injection h with h
          rw [show extractAllArgs (Node.namedArg name none) JSValue.undef =
            .ok (.named [(name, JSValue.undef)]) from by rw [extractAllArgs], ← h]
          rfl
        | some bn =>
          rw [shapeStable] at hst
          rw [matchNode] at h
          cases hmb : matchNode v bn with
          | error e => rw [hmb] at h; simp [bind, Except.bind] at h
          | ok o =>
            rw [hmb] at h
            cases o with
            | none => simp [bind, Except.bind] at h
            | some r =>
              simp only [bind, Except.bind] at h
              cases hm : mergeArgs r (.named [(name, v)]) with
              | error e => rw [hm] at h; simp at h
              | ok args2 =>
                rw [hm] at h
                injection (show (Except.ok (some args2) : Except String (Option MatchArgs)) =
                  .ok (some args) from h) with h2
                injection h2 with h3
                rw [extractAllArgs]
                rw [ih bn (by simp at hsz; omega) hst v r hmb]
                simp only [bind, Except.bind]
                have hfill := mergeArgs_fillUndef _ _ _ hm
                rw [show MatchArgs.fillUndef (MatchArgs.named [(name, v)]) =
                  .named [(name, JSValue.undef)] from rfl] at hfill
                rw [hfill, h3]
      | unnamedSpreadArg => simp [matchNode] at h
      | namedSpreadArg name => simp [matchNode] at h
      | wildcardSpread => simp [matchNode] at h
      | sugaredADTRoot tag => simp [shapeStable] at hst
      | tuple elems =>
        rw [shapeStable] at hst
        cases v
        case arr velems =>
          rw [matchNode] at h
          split at h
          any_goals (simp at h; done)
          try (split at h; any_goals (simp at h; done))
          rw [extractAllArgs]
          exact mirrorTuple elems
            (fun m hm v2 a2 hs hmm => ih m (by
              have h1 := List.sizeOf_lt_of_mem hm
              have h2 : sizeOf (Node.tuple elems) = 1 + sizeOf elems := by simp
              omega) hs v2 a2 hmm) hst _ _ _ _ _ _ h
        all_goals simp [matchNode] at h
      | object entries =>
        rw [shapeStable] at hst
        rw [matchNode] at h
        split at h
        · simp at h
        · rw [extractAllArgs]
          exact mirrorEntries entries
            (fun e he v2 a2 hs hmm => ih e.2 (by
              have h0 : sizeOf e.2 < sizeOf e := by cases e <;> simp <;> omega
              have h1 := List.sizeOf_lt_of_mem he
              have h2 : sizeOf (Node.object entries) = 1 + sizeOf entries := by simp
              omega) hs v2 a2 hmm) hst _ _ _ _ h
      | orNode vs =>
        rw [shapeStable, Bool.and_eq_true] at hst
        have hfree : nodeListContainsArg vs = false := by
          have h1 := hst.1
          rwa [Bool.not_eq_true'] at h1
        rw [matchNode] at h
        have hargs : args = .unnamed [] := matchOr_argFree vs
          (fun m hm v2 a2 hf hs hmm => matchNode_argFree m hf hs v2 a2 hmm)
          hfree hst.2 v args h
        subst hargs
        rw [extract_argFree _ .undef (by rw [nodeContainsArg]; exact hfree)]
        rfl
  exact H (sizeOf n) n le_rfl hst v args h

/-- C7 counterexample: the pattern `\x7b key?: [_] | null \x7d` parses and
validates (the validator misses the arg inside the Or variant, see C2),
its sub-pattern captures exactly one value when the key is present, yet
the absent-key match binds no captures at all — the "fill with
undefined" does not mirror the sub-pattern capture shape for an Or
variant that captures. -/
theorem c7_counterexample :
    parsePattern "{ key?: [_] | null }" =
      .ok (some (.object [("key?", .orNode [.tuple [.unnamedArg none], .nullLiteral])])) ∧
    matchNode (.obj .plain [])
        (.object [("key?", .orNode [.tuple [.unnamedArg none], .nullLiteral])]) =
      .ok (some (.unnamed [])) ∧
    matchNode (.obj .plain [("key", .arr [.str "x"])])
        (.object [("key?", .orNode [.tuple [.unnamedArg none], .nullLiteral])]) =
      .ok (some (.unnamed [JSValue.str "x"])) ∧
    MatchArgs.unnamed [] ≠ (MatchArgs.unnamed [JSValue.str "x"]).fillUndef := by
  refine ⟨rfl, ?_, ?_, by simp [MatchArgs.fillUndef]⟩
  · simp +decide [matchNode, matchObjEntries, matchOrLoop, matchTupleLoop,
      extractAllArgs, mergeArgs]
    rfl
  · simp +decide [matchNode, matchObjEntries, matchOrLoop, matchTupleLoop,
      extractAllArgs, mergeArgs]
    rfl

/-- C7 (amended): the concrete optional-key scenario behaves as claimed
(`\x7b key?: number as _ \x7d` against `\x7b\x7d` captures exactly `[undefined]`, and
fails against `\x7b key: "x" \x7d`); and in general, for a shape-stable
sub-pattern (no sugared-ADT root, Or variants capture-free — the
violating patterns are exactly the ones the validator was meant to
reject, see C2), an absent optional key binds precisely the captures a
successful match of the sub-pattern would have produced, every value
replaced by `undefined`. -/
theorem c7_optional_key_undef_fill :
    (parsePattern "{ key?: number as _ }" =
      .ok (some (.object [("key?", .unnamedArg (some (.wildcard "number")))])) ∧
    matchNode (.obj .plain [])
        (.object [("key?", .unnamedArg (some (.wildcard "number")))]) =
      .ok (some (.unnamed [JSValue.undef])) ∧
    matchNode (.obj .plain [("key", .str "x")])
        (.object [("key?", .unnamedArg (some (.wildcard "number")))]) = .ok none) ∧
    (∀ (key : String) (n : Node) (v w : JSValue) (args : MatchArgs),
      shapeStable n = true → args ≠ .named [] →
      v.isObjectLike = true → v.hasProp key = false →
      matchNode w n = .ok (some args) →
      matchNode v (.object [(key ++ "?", n)]) = .ok (some args.fillUndef)) := by
  refine ⟨⟨rfl, ?_, ?_⟩, ?_⟩
  · simp +decide [matchNode, matchObjEntries, extractAllArgs, mergeArgs]
    rfl
  · simp +decide [matchNode, matchObjEntries, extractAllArgs, mergeArgs]
    rfl
  · intro key n v w args hst hnotnamednil hobj hkey hmatch
    have hn2 : n ≠ .unnamedSpreadArg := by rintro rfl; simp [matchNode] at hmatch
    have hn3 : ∀ nm, n ≠ .namedSpreadArg nm := by rintro nm rfl; simp [matchNode] at hmatch
    have hend : strEndsWith (key ++ "?") "?" = true := by
      simp [strEndsWith, List.isPrefixOf]
    have hdrop : strDropRight (key ++ "?") 1 = key := by
      cases key with
      | mk data => simp [strDropRight]
    rw [matchNode, hobj]
    simp only [Bool.not_true, Bool.false_eq_true, if_false]
    rw [matchObjEntries_cons_other v [(key ++ "?", n)] (.unnamed []) (key ++ "?") n [] hn2 hn3]
    rw [hend, if_pos rfl, hdrop, hkey]
    simp only [Bool.not_false, if_true]
    rw [matchNode_extract_mirror n hst w args hmatch]
    simp only [bind, Except.bind]
    have hmerge : mergeArgs (.unnamed []) args.fillUndef = .ok args.fillUndef := by
      cases args with
      | unnamed l =>
        cases l with
        | nil => rfl
        | cons hd tl => rfl
      | named m =>
        cases m with
        | nil => exact absurd rfl hnotnamednil
        | cons hd tl => rfl
    rw [hmerge]
    show matchObjEntries v [(key ++ "?", n)] args.fillUndef [] = .ok (some args.fillUndef)
    rw [matchObjEntries]

/-- Witness for the general clause of C7 at a concrete instance. -/
theorem c7_optional_key_undef_fill_witness :
    matchNode (.obj .plain [])
        (.object [("key" ++ "?", .unnamedArg (some (.wildcard "number")))]) =
      .ok (some ((MatchArgs.unnamed [JSValue.num (.fin 3)]).fillUndef)) :=
  c7_optional_key_undef_fill.2 "key" (.unnamedArg (some (.wildcard "number")))
    (.obj .plain []) (.num (.fin 3)) (.unnamed [.num (.fin 3)])
    (by decide) (by simp) (by decide) (by decide)
    (by rw [matchNode]
        rw [show matchNode (JSValue.num (.fin 3)) (.wildcard "number") =
          .ok (some (.unnamed [])) from by rw [matchNode]; rfl]
        rfl)

end Megamatch
